import Mathlib

/-!
Verification of the Antigravity2Api gateway core against its specification.

The JavaScript sources are shallowly embedded: pure functions become Lean
functions, stateful classes become explicit state passing, JavaScript numbers
become `Int`/`Nat` (with exact decimal fractions where doubles occur), fallible code
returns `Option`.  JavaScript objects parsed from JSON are modelled by the
`Json` inductive below; `JSON.parse` failure is modelled by `Option Json`
inputs (`none` = the parse threw).
-/

namespace AG2

/-- A JSON value.  Numbers are modelled as integers (every numeric literal the
claims touch is integral); `obj` keeps fields in insertion order, as JS objects
do. -/
inductive Json where
  | null : Json
  | bool (b : Bool) : Json
  | num (n : Int) : Json
  | str (s : String) : Json
  | arr (elems : List Json) : Json
  | obj (fields : List (String × Json)) : Json
deriving Repr

mutual

def Json.beq : Json → Json → Bool
  | .null, .null => true
  | .bool a, .bool b => a == b
  | .num a, .num b => a == b
  | .str a, .str b => a == b
  | .arr a, .arr b => Json.beqList a b
  | .obj a, .obj b => Json.beqFields a b
  | _, _ => false

def Json.beqList : List Json → List Json → Bool
  | [], [] => true
  | a :: as, b :: bs => Json.beq a b && Json.beqList as bs
  | _, _ => false

def Json.beqFields : List (String × Json) → List (String × Json) → Bool
  | [], [] => true
  | (ka, va) :: as, (kb, vb) :: bs => ka == kb && Json.beq va vb && Json.beqFields as bs
  | _, _ => false

end

instance : BEq Json := ⟨Json.beq⟩

mutual

theorem Json.beq_iff : ∀ a b : Json, Json.beq a b = true ↔ a = b
  | .null, b => by cases b <;> simp [Json.beq]
  | .bool a, b => by cases b <;> simp [Json.beq]
  | .num a, b => by cases b <;> simp [Json.beq]
  | .str a, b => by cases b <;> simp [Json.beq]
  | .arr a, b => by
      cases b <;> simp [Json.beq]
      case arr bs => exact Json.beqList_iff a bs
  | .obj a, b => by
      cases b <;> simp [Json.beq]
      case obj bs => exact Json.beqFields_iff a bs

theorem Json.beqList_iff : ∀ a b : List Json, Json.beqList a b = true ↔ a = b
  | [], [] => by simp [Json.beqList]
  | [], _ :: _ => by simp [Json.beqList]
  | _ :: _, [] => by simp [Json.beqList]
  | a :: as, b :: bs => by
      simp [Json.beqList, Json.beq_iff a b, Json.beqList_iff as bs]

theorem Json.beqFields_iff :
    ∀ a b : List (String × Json), Json.beqFields a b = true ↔ a = b
  | [], [] => by simp [Json.beqFields]
  | [], _ :: _ => by simp [Json.beqFields]
  | _ :: _, [] => by simp [Json.beqFields]
  | (ka, va) :: as, (kb, vb) :: bs => by
      simp [Json.beqFields, Json.beq_iff va vb, Json.beqFields_iff as bs]

end

instance : DecidableEq Json := fun a b =>
  decidable_of_iff (Json.beq a b = true) (Json.beq_iff a b)

/-- JavaScript truthiness of a JSON value (`undefined` is modelled by
`Option.none` at use sites). -/
def jsTruthy : Json → Bool
  | .null => false
  | .bool b => b
  | .num n => n != 0
  | .str s => !s.isEmpty
  | .arr _ => true
  | .obj _ => true

/-- Truthiness of a possibly-undefined value. -/
def jsTruthy? : Option Json → Bool
  | none => false
  | some j => jsTruthy j

/-- First-match property lookup on an object's field list (JS objects have
unique keys, so first-match agrees with JS property access). -/
def jsGet (fields : List (String × Json)) (key : String) : Option Json :=
  (fields.find? (fun kv => kv.1 == key)).map (·.2)

/-- Property access `j[key]`: `none` models `undefined` (primitives have none
of the properties the code reads; accessing a property of `null` throws, which
callers model explicitly). -/
def Json.get? : Json → String → Option Json
  | .obj fields, key => jsGet fields key
  | _, _ => none

/-- Does `hay` start with `needle`? -/
def leadsWith : List Char → List Char → Bool
  | [], _ => true
  | _ :: _, [] => false
  | n :: ns, h :: hs => n == h && leadsWith ns hs

/-- JS `String.prototype.includes`: substring containment. -/
def containsChars (hay needle : List Char) : Bool :=
  leadsWith needle hay ||
    (match hay with
     | [] => false
     | _ :: t => containsChars t needle)

mutual

/-- JS string coercion (template literal / `String(x)`). -/
def jsToString : Json → String
  | .null => "null"
  | .bool true => "true"
  | .bool false => "false"
  | .num n => toString n
  | .str s => s
  | .arr xs => jsArrJoin xs
  | .obj _ => "[object Object]"

/-- `Array.prototype.toString` = `join(",")`; `null` elements print as "". -/
def jsArrJoin : List Json → String
  | [] => ""
  | [x] => jsArrElem x
  | x :: xs => jsArrElem x ++ "," ++ jsArrJoin xs

def jsArrElem : Json → String
  | .null => ""
  | .bool true => "true"
  | .bool false => "false"
  | .num n => toString n
  | .str s => s
  | .arr xs => jsArrJoin xs
  | .obj _ => "[object Object]"

end

/-- Hex digit for JSON string escaping. -/
def hexDigit (n : Nat) : Char :=
  if n < 10 then Char.ofNat (48 + n) else Char.ofNat (87 + n)

/-- `JSON.stringify` escaping of one string character. -/
def jsonEscapeChar (c : Char) : String :=
  if c = '"' then "\\\""
  else if c = '\\' then "\\\\"
  else if c = '\n' then "\\n"
  else if c = '\r' then "\\r"
  else if c = '\t' then "\\t"
  else if c = '\x08' then "\\b"
  else if c = '\x0c' then "\\f"
  else if c.toNat < 32 then
    "\\u00" ++ String.mk [hexDigit (c.toNat / 16), hexDigit (c.toNat % 16)]
  else String.mk [c]

def jsonEscape (s : String) : String :=
  s.data.foldl (fun acc c => acc ++ jsonEscapeChar c) ""

mutual

/-- `JSON.stringify` of a JSON value. -/
def jsonStringify : Json → String
  | .null => "null"
  | .bool true => "true"
  | .bool false => "false"
  | .num n => toString n
  | .str s => "\"" ++ jsonEscape s ++ "\""
  | .arr xs => "[" ++ jsonStringifyList xs ++ "]"
  | .obj fs => "\x7b" ++ jsonStringifyFields fs ++ "\x7d"

def jsonStringifyList : List Json → String
  | [] => ""
  | [x] => jsonStringify x
  | x :: xs => jsonStringify x ++ "," ++ jsonStringifyList xs

def jsonStringifyFields : List (String × Json) → String
  | [] => ""
  | [(k, v)] => "\"" ++ jsonEscape k ++ "\":" ++ jsonStringify v
  | (k, v) :: fs => "\"" ++ jsonEscape k ++ "\":" ++ jsonStringify v ++ "," ++ jsonStringifyFields fs

end

def isDigitOrDot (c : Char) : Bool := c.isDigit || c == '.'

/-- JS `\s` (the whitespace characters that can occur in duration strings). -/
def isJsSpace (c : Char) : Bool :=
  c == ' ' || c == '\t' || c == '\n' || c == '\r' || c == '\x0b' || c == '\x0c'

/-- A nonnegative decimal fraction `num / 10 ^ pow`: the exact-rational model
of the double values flowing through the duration parser (all of them are
sums of products of nonnegative decimal literals). -/
structure DecFrac where
  num : Nat
  pow : Nat
deriving Repr, DecidableEq

def DecFrac.add (a b : DecFrac) : DecFrac :=
  let p := max a.pow b.pow
  ⟨a.num * 10 ^ (p - a.pow) + b.num * 10 ^ (p - b.pow), p⟩

def DecFrac.scale (a : DecFrac) (k : Nat) : DecFrac := ⟨a.num * k, a.pow⟩

/-- `Math.round` of a nonnegative decimal fraction: floor of `x + 1/2`. -/
def DecFrac.round (a : DecFrac) : Nat := (2 * a.num + 10 ^ a.pow) / (2 * 10 ^ a.pow)

/-- JS `String.prototype.trim` (the whitespace forms that occur here). -/
def jsTrim (s : String) : String :=
  String.mk (((s.data.dropWhile isJsSpace).reverse.dropWhile isJsSpace).reverse)

-- ==================== Retry-delay parsing (upstream.js 78-121) ====================

/-- A duration unit of the regex `([\d.]+)\s*(ms|s|m|h)`. -/
inductive DurUnit where
  | ms | s | m | h
deriving Repr, DecidableEq

/-- Match the unit alternation `(ms|s|m|h)` at the head of the input; the JS
alternation tries `ms` before `s`, `m`, `h`. -/
def matchUnit : List Char → Option (DurUnit × List Char)
  | c1 :: c2 :: rest =>
    if c1 = 'm' ∧ c2 = 's' then some (.ms, rest)
    else if c1 = 's' then some (.s, c2 :: rest)
    else if c1 = 'm' then some (.m, c2 :: rest)
    else if c1 = 'h' then some (.h, c2 :: rest)
    else none
  | [c1] =>
    if c1 = 's' then some (.s, [])
    else if c1 = 'm' then some (.m, [])
    else if c1 = 'h' then some (.h, [])
    else none
  | [] => none

/-- Successive matches of `/([\d.]+)\s*(ms|s|m|h)/g` over the input, with a
step-count bound for structural recursion: at a digit-or-dot character take
the maximal `[\d.]+` run, skip `\s*`, and require a unit; on failure the regex
engine advances one character (inside a failing run every later start position
fails the same way, so this is equivalent).  Each step consumes at least one
character and one unit of the bound, so `cs.length` steps always suffice. -/
def scanDurationsGo : Nat → List Char → List (String × DurUnit)
  | 0, _ => []
  | _, [] => []
  | fuel + 1, c :: rest =>
    if isDigitOrDot c then
      match matchUnit ((rest.dropWhile isDigitOrDot).dropWhile isJsSpace) with
      | some (u, rest2) =>
          (String.mk ((c :: rest).takeWhile isDigitOrDot), u) :: scanDurationsGo fuel rest2
      | none => scanDurationsGo fuel rest
    else scanDurationsGo fuel rest

def scanDurations (cs : List Char) : List (String × DurUnit) :=
  scanDurationsGo cs.length cs

/-- Decimal value of a digit run. -/
def digitsVal (cs : List Char) : Nat :=
  cs.foldl (fun acc c => acc * 10 + (c.toNat - 48)) 0

/-- JS `parseFloat` restricted to strings over `[0-9.]` (the only strings the
duration regex can capture): integer part, optional dot, fraction; `NaN` when
no digit precedes the stop position. -/
def parseFloatND (s : String) : Option DecFrac :=
  let cs := s.data
  let intPart := cs.takeWhile Char.isDigit
  let rest := cs.dropWhile Char.isDigit
  match rest with
  | '.' :: fracRest =>
    let fracPart := fracRest.takeWhile Char.isDigit
    if intPart.isEmpty && fracPart.isEmpty then none
    else some ⟨digitsVal intPart * 10 ^ fracPart.length + digitsVal fracPart, fracPart.length⟩
  | _ => if intPart.isEmpty then none else some ⟨digitsVal intPart, 0⟩

def unitFactorMs : DurUnit → Nat
  | .ms => 1
  | .s => 1000
  | .m => 60 * 1000
  | .h => 60 * 60 * 1000

/-- `UpstreamClient.parseDurationMs` (upstream.js 78-99): sum every
number-unit match, in milliseconds, rounded; `none` when nothing matched.
A match whose number part is not a finite float (e.g. `".."`) still counts as
a match but contributes nothing. -/
def parseDurationMs (durationStr : Json) : Option Int :=
  if !jsTruthy durationStr then none
  else
    let str := jsTrim (jsToString durationStr)
    if str.data.isEmpty then none
    else
      let durMatches := scanDurations str.data
      if durMatches.isEmpty then none
      else
        let total : DecFrac := durMatches.foldl
          (fun acc p =>
            match parseFloatND p.1 with
            | none => acc
            | some v => acc.add (v.scale (unitFactorMs p.2))) ⟨0, 0⟩
        some (DecFrac.round total : Int)

/-- Result of `Array.prototype.find` with a callback that can throw. -/
inductive JsFind where
  | found (j : Json)
  | notFound
  | thrown
deriving Repr, DecidableEq

/-- The callback `(d) => d["@type"]?.includes("RetryInfo")`: throws on `null`
elements and on non-string, non-array `@type` values. -/
def typeMatchesRetryInfo : Json → Option Bool
  | .null => none
  | .obj fs =>
    match jsGet fs "@type" with
    | none => some false
    | some .null => some false
    | some (.str s) => some (containsChars s.data "RetryInfo".data)
    | some (.arr xs) => some (xs.contains (.str "RetryInfo"))
    | some _ => none
  | _ => some false

def findRetryInfo : List Json → JsFind
  | [] => .notFound
  | d :: rest =>
    match typeMatchesRetryInfo d with
    | none => .thrown
    | some true => .found d
    | some false => findRetryInfo rest

/-- The callback `(d) => d.metadata?.quotaResetDelay`: `none` = throws (null
element); otherwise the `quotaResetDelay` value reached, `undefined` as
`some none`. -/
def quotaDelayOf : Json → Option (Option Json)
  | .null => none
  | .obj fs =>
    match jsGet fs "metadata" with
    | some (.obj ms) => some (jsGet ms "quotaResetDelay")
    | _ => some none
  | _ => some none

/-- `details.find((d) => d.metadata?.quotaResetDelay)` followed by the
re-extraction `?.metadata?.quotaResetDelay`: `none` = thrown, `some none` =
no element with a truthy delay, `some (some v)` = the first truthy delay. -/
def findQuotaDelay : List Json → Option (Option Json)
  | [] => some none
  | d :: rest =>
    match quotaDelayOf d with
    | none => none
    | some (some v) => if jsTruthy v then some (some v) else findQuotaDelay rest
    | some none => findQuotaDelay rest

/-- `errObj.error?.details || []` with the subsequent `.find` calls in mind:
`none` models a truthy non-array `details` (on which `.find` throws). -/
def detailsOf (errObj : Json) : Option (List Json) :=
  match errObj.get? "error" with
  | none => some []
  | some .null => some []
  | some e =>
    match e.get? "details" with
    | none => some []
    | some d =>
      if jsTruthy d then
        match d with
        | .arr xs => some xs
        | _ => none
      else some []

/-- `UpstreamClient.parseRetryDelayMs` (upstream.js 101-121).  The input is
the result of `JSON.parse(errText)`: `none` = the parse threw (malformed
JSON), in which case the catch yields `null`.  Prefers `RetryInfo.retryDelay`
over `metadata.quotaResetDelay`. -/
def parseRetryDelayMs (parsed : Option Json) : Option Int :=
  match parsed with
  | none => none
  | some .null => none
  | some errObj =>
    match detailsOf errObj with
    | none => none
    | some ds =>
      let fallback : Option Int :=
        match findQuotaDelay ds with
        | none => none
        | some none => none
        | some (some v) => parseDurationMs v
      match findRetryInfo ds with
      | .thrown => none
      | .notFound => fallback
      | .found ri =>
        match ri.get? "retryDelay" with
        | some v =>
          if jsTruthy v then
            match parseDurationMs v with
            | some msv => some msv
            | none => fallback
          else fallback
        | none => fallback

-- ==================== Anthropic translator: data (ClaudeTransformer.js) ====================

/-- Truthiness of a possibly-absent string (absent or empty is falsy). -/
def strTruthy? : Option String → Bool
  | none => false
  | some s => !s.isEmpty

/-- `x || fallback` for strings. -/
def jsStrOr (o : Option String) (fallback : String) : String :=
  match o with
  | some s => if s.isEmpty then fallback else s
  | none => fallback

/-- An upstream `functionCall` part payload. -/
structure FunctionCall where
  name : String
  args : Option Json
  id : Option String
deriving Repr, DecidableEq

/-- An upstream content part (`candidates[0].content.parts[i]`). -/
structure Part where
  text : Option String
  thought : Bool
  thoughtSignature : Option String
  functionCall : Option FunctionCall
deriving Repr, DecidableEq

/-- A Claude content block as built by the translator. -/
inductive CBlock where
  | text (text : String)
  | thinking (thinking : String) (signature : Option String)
  | toolUse (id : String) (name : String) (input : Json) (signature : Option String)
deriving Repr, DecidableEq

/-- `fc.id || fc.name + "-" + random8`; the random suffix is modelled by an
opaque constant (no claim observes generated ids). -/
def toolIdOf (fc : FunctionCall) : String :=
  match fc.id with
  | some i => if i.isEmpty then fc.name ++ "-xxxxxxxx" else i
  | none => fc.name ++ "-xxxxxxxx"

/-- `usageMetadata` fields read by `toClaudeUsage`. -/
structure UsageMeta where
  promptTokenCount : Option Int := none
  candidatesTokenCount : Option Int := none
  thoughtsTokenCount : Option Int := none
  totalTokenCount : Option Int := none
deriving Repr, DecidableEq

structure ClaudeUsage where
  input_tokens : Int
  output_tokens : Int
deriving Repr, DecidableEq

/-- `toClaudeUsage` (ClaudeTransformer.js 564-580). -/
def toClaudeUsage (u : UsageMeta) : ClaudeUsage :=
  let prompt := u.promptTokenCount.getD 0
  let candidates := u.candidatesTokenCount.getD 0
  let thoughts := u.thoughtsTokenCount.getD 0
  match u.totalTokenCount with
  | some total =>
    if total != 0 && total >= prompt then ⟨prompt, total - prompt⟩
    else ⟨prompt, candidates + thoughts⟩
  | none => ⟨prompt, candidates + thoughts⟩

/-- The upstream response fields the processors read
(`candidates?.[0]?.content?.parts || []`, `candidates?.[0]?.finishReason`,
`responseId`, `modelVersion`, `usageMetadata`). -/
structure RawResponse where
  parts : List Part := []
  finishReason : Option String := none
  responseId : Option String := none
  modelVersion : Option String := none
  usageMetadata : Option UsageMeta := none
deriving Repr, DecidableEq

structure ClaudeResponse where
  id : String
  model : String
  content : List CBlock
  stop_reason : String
  usage : Option ClaudeUsage
deriving Repr, DecidableEq

-- ==================== NonStreamingProcessor (ClaudeTransformer.js 350-553) ====================

/-- Mutable fields of `NonStreamingProcessor`. -/
structure NSState where
  contentBlocks : List CBlock := []
  textBuilder : String := ""
  thinkingBuilder : String := ""
  hasToolCall : Bool := false
  thinkingSignature : Option String := none
  trailingSignature : Option String := none
deriving Repr, DecidableEq

def NSState.init : NSState := {}

/-- `flushText` (494-501). -/
def NonStreamingProcessor.flushText (st : NSState) : NSState :=
  if st.textBuilder.isEmpty then st
  else { st with contentBlocks := st.contentBlocks ++ [.text st.textBuilder], textBuilder := "" }

/-- `flushThinking` (503-521): emitted when there is thinking text or a pending
thinking signature; the signature is attached when truthy. -/
def NonStreamingProcessor.flushThinking (st : NSState) : NSState :=
  if st.thinkingBuilder.isEmpty && !strTruthy? st.thinkingSignature then st
  else
    { st with
      contentBlocks := st.contentBlocks ++
        [.thinking st.thinkingBuilder
          (if strTruthy? st.thinkingSignature then st.thinkingSignature else none)],
      thinkingBuilder := "",
      thinkingSignature := none }

/-- Append the dedicated empty thinking block that carries a trailing
signature, and clear it (the `if (this.trailingSignature)` pushes). -/
def NonStreamingProcessor.pushTrailing (st : NSState) : NSState :=
  { st with
    contentBlocks := st.contentBlocks ++ [.thinking "" st.trailingSignature],
    trailingSignature := none }

/-- `processPart` (389-492). -/
def NonStreamingProcessor.processPart (st : NSState) (part : Part) : NSState :=
  let signature := part.thoughtSignature
  match part.functionCall with
  | some fc =>
    let st := NonStreamingProcessor.flushThinking st
    let st := NonStreamingProcessor.flushText st
    let st := if strTruthy? st.trailingSignature then NonStreamingProcessor.pushTrailing st else st
    let input := match fc.args with
      | some a => if jsTruthy a then a else .obj []
      | none => .obj []
    { st with
      hasToolCall := true,
      contentBlocks := st.contentBlocks ++
        [.toolUse (toolIdOf fc) fc.name input
          (if strTruthy? signature then signature else none)] }
  | none =>
    match part.text with
    | none => st
    | some t =>
      if part.thought then
        let st := NonStreamingProcessor.flushText st
        let st :=
          if strTruthy? st.trailingSignature then
            NonStreamingProcessor.pushTrailing (NonStreamingProcessor.flushThinking st)
          else st
        let st := { st with thinkingBuilder := st.thinkingBuilder ++ t }
        if strTruthy? signature then { st with thinkingSignature := signature } else st
      else
        if t.isEmpty then
          if strTruthy? signature then { st with trailingSignature := signature } else st
        else
          let st := NonStreamingProcessor.flushThinking st
          let st :=
            if strTruthy? st.trailingSignature then
              NonStreamingProcessor.pushTrailing (NonStreamingProcessor.flushText st)
            else st
          let st := { st with textBuilder := st.textBuilder ++ t }
          if strTruthy? signature then
            let st := NonStreamingProcessor.flushText st
            { st with contentBlocks := st.contentBlocks ++ [.thinking "" signature] }
          else st

/-- `buildResponse` (523-552). -/
def NonStreamingProcessor.buildResponse (raw : RawResponse) (st : NSState) : ClaudeResponse :=
  let stopReason :=
    if st.hasToolCall then "tool_use"
    else if raw.finishReason = some "MAX_TOKENS" then "max_tokens"
    else "end_turn"
  let usage := toClaudeUsage (raw.usageMetadata.getD {})
  { id := raw.responseId.getD ""
    model := raw.modelVersion.getD ""
    content := st.contentBlocks
    stop_reason := stopReason
    usage :=
      if usage.input_tokens = 0 && usage.output_tokens = 0 && raw.usageMetadata.isNone then none
      else some usage }

/-- `process` (364-387): walk all parts, flush thinking then text, then emit
the trailing-signature block, then build the response. -/
def NonStreamingProcessor.process (raw : RawResponse) : ClaudeResponse :=
  let st := raw.parts.foldl NonStreamingProcessor.processPart NSState.init
  let st := NonStreamingProcessor.flushThinking st
  let st := NonStreamingProcessor.flushText st
  let st := if strTruthy? st.trailingSignature then NonStreamingProcessor.pushTrailing st else st
  NonStreamingProcessor.buildResponse raw st

-- ==================== StreamingState + PartProcessor (ClaudeTransformer.js 33-347) ====================

inductive SBlockType where
  | bnone | btext | bthinking | bfunction
deriving Repr, DecidableEq

inductive SDelta where
  | textDelta (text : String)
  | thinkingDelta (thinking : String)
  | signatureDelta (signature : String)
  | inputJsonDelta (partialJson : String)
deriving Repr, DecidableEq

/-- An SSE event of the translated Anthropic stream. -/
inductive SEvent where
  | messageStart (id : String) (model : Option String) (usage : Option ClaudeUsage)
  | blockStart (index : Nat) (block : CBlock)
  | blockDelta (index : Nat) (delta : SDelta)
  | blockStop (index : Nat)
  | messageDelta (stopReason : String) (usage : ClaudeUsage)
  | messageStop
deriving Repr, DecidableEq

/-- Mutable fields of `StreamingState` (the `SignatureManager` is its
`pending` field; stored signatures are always truthy). -/
structure SState where
  blockType : SBlockType := .bnone
  blockIndex : Nat := 0
  messageStartSent : Bool := false
  messageStopSent : Bool := false
  usedTool : Bool := false
  pendingSig : Option String := none
  trailingSignature : Option String := none
deriving Repr, DecidableEq

def SState.init : SState := {}

/-- `emitMessageStart` (60-79). -/
def StreamingState.emitMessageStart (st : SState) (raw : RawResponse) : SState × List SEvent :=
  if st.messageStartSent then (st, [])
  else
    ({ st with messageStartSent := true },
     [.messageStart (jsStrOr raw.responseId "msg_xxxxxxxxxx") raw.modelVersion
        (raw.usageMetadata.map toClaudeUsage)])

/-- `endBlock` (96-110): when a thinking block closes with a pending
signature, a `signature_delta` precedes the stop; the index advances on every
stop. -/
def StreamingState.endBlock (st : SState) : SState × List SEvent :=
  if st.blockType = .bnone then (st, [])
  else
    let sigEvents :=
      if st.blockType = .bthinking && strTruthy? st.pendingSig then
        [SEvent.blockDelta st.blockIndex (.signatureDelta (st.pendingSig.getD ""))]
      else []
    let st := if st.blockType = .bthinking && strTruthy? st.pendingSig then { st with pendingSig := none } else st
    ({ st with blockType := .bnone, blockIndex := st.blockIndex + 1 },
     sigEvents ++ [.blockStop st.blockIndex])

/-- `startBlock` (82-93). -/
def StreamingState.startBlock (st : SState) (type : SBlockType) (block : CBlock) :
    SState × List SEvent :=
  let (st, evs) := if st.blockType != .bnone then StreamingState.endBlock st else (st, [])
  ({ st with blockType := type }, evs ++ [.blockStart st.blockIndex block])

/-- The inline "standalone empty thinking block carrying a signature"
emission (start, empty thinking delta, signature delta, stop, index++). -/
def StreamingState.signatureBlock (st : SState) (sig : String) : SState × List SEvent :=
  ({ st with blockIndex := st.blockIndex + 1 },
   [.blockStart st.blockIndex (.thinking "" none),
    .blockDelta st.blockIndex (.thinkingDelta ""),
    .blockDelta st.blockIndex (.signatureDelta sig),
    .blockStop st.blockIndex])

/-- The `if (this.state.trailingSignature)` prologue of the part processor:
close the current block, emit the standalone signature block, clear. -/
def StreamingState.flushTrailing (st : SState) : SState × List SEvent :=
  if strTruthy? st.trailingSignature then
    let sig := st.trailingSignature.getD ""
    let (st, e1) := StreamingState.endBlock st
    let (st, e2) := StreamingState.signatureBlock st sig
    ({ st with trailingSignature := none }, e1 ++ e2)
  else (st, [])

/-- `PartProcessor.processThinking` (297-306). -/
def PartProcessor.processThinking (st : SState) (text : String) : SState × List SEvent :=
  if st.blockType = .bthinking then
    (st, [.blockDelta st.blockIndex (.thinkingDelta text)])
  else
    let (st, e1) := StreamingState.startBlock st .bthinking (.thinking "" none)
    (st, e1 ++ [.blockDelta st.blockIndex (.thinkingDelta text)])

/-- `PartProcessor.processText` (309-320). -/
def PartProcessor.processText (st : SState) (text : String) : SState × List SEvent :=
  if text.isEmpty then (st, [])
  else if st.blockType = .btext then
    (st, [.blockDelta st.blockIndex (.textDelta text)])
  else
    let (st, e1) := StreamingState.startBlock st .btext (.text "")
    (st, e1 ++ [.blockDelta st.blockIndex (.textDelta text)])

/-- `PartProcessor.processFunctionCall` (323-346): the tool_use block carries
only the function call's own signature; arguments are serialized as one
`input_json_delta`. -/
def PartProcessor.processFunctionCall (st : SState) (fc : FunctionCall)
    (sigToUse : Option String) : SState × List SEvent :=
  let block := CBlock.toolUse (toolIdOf fc) fc.name (.obj [])
    (if strTruthy? sigToUse then sigToUse else none)
  let (st, e1) := StreamingState.startBlock st .bfunction block
  let e2 :=
    if jsTruthy? fc.args then
      [SEvent.blockDelta st.blockIndex (.inputJsonDelta (jsonStringify (fc.args.getD .null)))]
    else []
  ({ st with usedTool := true }, e1 ++ e2)

/-- `PartProcessor.process` (177-294). -/
def PartProcessor.process (st : SState) (part : Part) : SState × List SEvent :=
  let signature := part.thoughtSignature
  match part.functionCall with
  | some fc =>
    let (st, e1) := StreamingState.flushTrailing st
    let (st, e2) := PartProcessor.processFunctionCall st fc signature
    (st, e1 ++ e2)
  | none =>
    match part.text with
    | none => (st, [])
    | some t =>
      if !part.thought && t.isEmpty then
        (if strTruthy? signature then { st with trailingSignature := signature } else st, [])
      else if part.thought then
        let (st, e1) := StreamingState.flushTrailing st
        let (st, e2) := PartProcessor.processThinking st t
        let st := if strTruthy? signature then { st with pendingSig := signature } else st
        (st, e1 ++ e2)
      else
        let (st, e1) := StreamingState.flushTrailing st
        if strTruthy? signature then
          let (st, e2) := StreamingState.endBlock st
          let (st, e3) := StreamingState.startBlock st .btext (.text "")
          let e4 := [SEvent.blockDelta st.blockIndex (.textDelta t)]
          let (st, e5) := StreamingState.endBlock st
          let (st, e6) := StreamingState.signatureBlock st (signature.getD "")
          (st, e1 ++ e2 ++ e3 ++ e4 ++ e5 ++ e6)
        else
          let (st, e2) := PartProcessor.processText st t
          (st, e1 ++ e2)

/-- `emitFinish` (122-167): close the block, flush the trailing signature as a
standalone empty thinking block, then `message_delta` and `message_stop`. -/
def StreamingState.emitFinish (st : SState) (finishReason : Option String)
    (usageMetadata : Option UsageMeta) : SState × List SEvent :=
  let (st, e1) := StreamingState.endBlock st
  let (st, e2) :=
    if strTruthy? st.trailingSignature then
      let sig := st.trailingSignature.getD ""
      let (st, ev) := StreamingState.signatureBlock st sig
      ({ st with trailingSignature := none }, ev)
    else (st, [])
  let stopReason :=
    if st.usedTool then "tool_use"
    else if finishReason = some "MAX_TOKENS" then "max_tokens"
    else "end_turn"
  let e3 := [SEvent.messageDelta stopReason (toClaudeUsage (usageMetadata.getD {}))]
  let (st, e4) :=
    if !st.messageStopSent then ({ st with messageStopSent := true }, [SEvent.messageStop])
    else (st, [])
  (st, e1 ++ e2 ++ e3 ++ e4)

-- ==================== C3: retry-delay parsing ====================

/-- C3: the retry-delay parser sums every number-unit match over
`ms`/`s`/`m`/`h` and rounds to milliseconds — `"1h16m0.667s"` gives 4560667,
`"331.167ms"` gives 331, `"1.203s"` gives 1203; strings with no number-unit
match give `null`; `parseRetryDelayMs` reads `error.details[]`, prefers
`RetryInfo.retryDelay` over `metadata.quotaResetDelay`, and gives `null` on
malformed JSON. -/
theorem retry_delay_parsing_correct :
    parseDurationMs (.str "1h16m0.667s") = some 4560667 ∧
    parseDurationMs (.str "331.167ms") = some 331 ∧
    parseDurationMs (.str "1.203s") = some 1203 ∧
    parseDurationMs (.str "no units here!") = none ∧
    parseDurationMs (.str "") = none ∧
    parseRetryDelayMs none = none ∧
    parseRetryDelayMs (some (.obj [("error", .obj [("details", .arr [
      .obj [("@type", .str "type.googleapis.com/google.rpc.RetryInfo"),
            ("retryDelay", .str "2s")],
      .obj [("metadata", .obj [("quotaResetDelay", .str "9s")])]])])])) = some 2000 ∧
    parseRetryDelayMs (some (.obj [("error", .obj [("details", .arr [
      .obj [("metadata", .obj [("quotaResetDelay", .str "1h16m0.667s")])]])])])) =
      some 4560667 := by
  decide

-- ==================== C1: thought-signature edge case ====================

/-- The two parts of the edge case: an empty text part carrying only a
thought signature, then a function call named "x" with empty args and id
"t1". -/
def edgePart1 (sig : String) : Part :=
  { text := some "", thought := false, thoughtSignature := some sig, functionCall := none }

def edgePart2 : Part :=
  { text := none, thought := false, thoughtSignature := none,
    functionCall := some ⟨"x", some (.obj []), some "t1"⟩ }

def edgeParts (sig : String) : List Part := [edgePart1 sig, edgePart2]

/-- Streaming run of the edge case: both parts processed, then the finish. -/
def edgeStreamEvents (sig : String) : List SEvent :=
  let (st, e1) := PartProcessor.process SState.init (edgePart1 sig)
  let (st, e2) := PartProcessor.process st edgePart2
  let (_, e3) := StreamingState.emitFinish st (some "STOP") none
  e1 ++ e2 ++ e3

/-- C1: for upstream parts `[{text:"", thoughtSignature:SIG}, {functionCall:
{name:"x", args:{}, id:"t1"}}]` both the non-streaming processor and the
streaming part processor emit exactly one empty thinking block carrying the
signature, immediately followed by one tool_use block named "x" with id "t1"
and no signature of its own, with stop reason `tool_use`. -/
theorem thought_signature_edge_case (sig : String) (hsig : sig.isEmpty = false) :
    (NonStreamingProcessor.process { parts := edgeParts sig }).content =
      [.thinking "" (some sig), .toolUse "t1" "x" (.obj []) none] ∧
    (NonStreamingProcessor.process { parts := edgeParts sig }).stop_reason = "tool_use" ∧
    edgeStreamEvents sig =
      [.blockStart 0 (.thinking "" none),
       .blockDelta 0 (.thinkingDelta ""),
       .blockDelta 0 (.signatureDelta sig),
       .blockStop 0,
       .blockStart 1 (.toolUse "t1" "x" (.obj []) none),
       .blockDelta 1 (.inputJsonDelta (jsonStringify (.obj []))),
       .blockStop 1,
       .messageDelta "tool_use" ⟨0, 0⟩,
       .messageStop] := by
  have s1 : "".isEmpty = true := by decide
  have s2 : "t1".isEmpty = false := by decide
  refine ⟨?_, ?_, ?_⟩
  · simp [NonStreamingProcessor.process, NonStreamingProcessor.processPart,
      NonStreamingProcessor.flushText, NonStreamingProcessor.flushThinking,
      NonStreamingProcessor.pushTrailing, NonStreamingProcessor.buildResponse,
      NSState.init, edgeParts, edgePart1, edgePart2,
      strTruthy?, hsig, toolIdOf, jsTruthy?, jsTruthy, s1, s2]
  · simp [NonStreamingProcessor.process, NonStreamingProcessor.processPart,
      NonStreamingProcessor.flushText, NonStreamingProcessor.flushThinking,
      NonStreamingProcessor.pushTrailing, NonStreamingProcessor.buildResponse,
      NSState.init, edgeParts, edgePart1, edgePart2,
      strTruthy?, hsig, toolIdOf, jsTruthy?, jsTruthy, s1, s2]
  · simp [edgeStreamEvents, edgePart1, edgePart2, PartProcessor.process,
      PartProcessor.processFunctionCall, StreamingState.flushTrailing,
      StreamingState.endBlock, StreamingState.startBlock, StreamingState.signatureBlock,
      StreamingState.emitFinish, SState.init, strTruthy?, hsig, toolIdOf,
      jsTruthy?, jsTruthy, toClaudeUsage, s1, s2]

/-- Witness for `thought_signature_edge_case` at the spec's literal `SIG1`. -/
theorem thought_signature_edge_case_witness :
    "SIG1".isEmpty = false ∧
    (NonStreamingProcessor.process { parts := edgeParts "SIG1" }).stop_reason = "tool_use" :=
  ⟨by decide, (thought_signature_edge_case "SIG1" (by decide)).2.1⟩

-- ==================== Quota cache & selector (QuotaRefresher.js) ====================

/-- The fields a quota snapshot can carry (`updateQuotaCacheFromModels` and
`setCooldownUntil` writes); absent fields are `none`. -/
structure QuotaSnapshot where
  remainingFraction : Option Json := none
  remainingPercent : Option Int := none
  resetTime : Option Json := none
  resetTimeMs : Option Int := none
  updatedAtMs : Option Int := none
  cooldownUntilMs : Option Int := none
deriving Repr, DecidableEq

def QuotaSnapshot.empty : QuotaSnapshot := {}

/-- A cached last-error entry (`cacheLastErrorResponse`). -/
structure CachedError where
  status : Int
  headers : List (String × String)
  bodyText : String
  cachedAtMs : Int
deriving Repr, DecidableEq

/-- An upstream HTTP response.  `bodyJson` carries the result of
`JSON.parse(bodyText)` (`none` = the parse would throw), since the embedding
has no JSON parser; header names are stored lowercased, as the Fetch
`Headers` class normalizes them. -/
structure Resp where
  status : Int
  headers : List (String × String) := []
  bodyText : String := ""
  bodyJson : Option Json := none
deriving Repr, DecidableEq

/-- Fetch `Response.ok`: status in [200, 300). -/
def Resp.ok (r : Resp) : Bool := 200 ≤ r.status && r.status < 300

/-- The `QuotaRefresher` state the claims touch: the per-(model, account)
snapshot map, the per-model last-error cache, and the per-model round-robin
cursor. -/
structure QuotaState where
  quota : String → String → Option QuotaSnapshot
  lastError : String → Option CachedError
  nextStart : String → Option Int

def QuotaState.empty : QuotaState :=
  ⟨fun _ _ => none, fun _ => none, fun _ => none⟩

/-- `setCooldownUntil` (QuotaRefresher.js 277-287): overwrite only
`cooldownUntilMs`, spreading the previous snapshot (or `{}`); no-op for an
empty (trimmed) model id. -/
def QuotaRefresher.setCooldownUntil (st : QuotaState) (modelId accountKey : String)
    (cooldownUntilMs : Option Int) : QuotaState :=
  let key := jsTrim modelId
  if key.isEmpty then st
  else
    let prev := (st.quota key accountKey).getD {}
    { st with
      quota := fun m a =>
        if m = key ∧ a = accountKey then some { prev with cooldownUntilMs := cooldownUntilMs }
        else st.quota m a }

/-- `cacheLastErrorResponse` (QuotaRefresher.js 289-311). -/
def QuotaRefresher.cacheLastErrorResponse (st : QuotaState) (modelId : String) (resp : Resp)
    (nowMs : Int) : QuotaState :=
  let key := jsTrim modelId
  if key.isEmpty then st
  else
    { st with
      lastError := fun m =>
        if m = key then some ⟨resp.status, resp.headers, resp.bodyText, nowMs⟩
        else st.lastError m }

/-- `getCachedErrorResponse` (QuotaRefresher.js 313-327): rebuild a `Response`
from the cached entry (`cached.status || 429`); the rebuilt body is not
re-parsed. -/
def QuotaRefresher.getCachedErrorResponse (st : QuotaState) (modelId : String) : Option Resp :=
  let key := jsTrim modelId
  if key.isEmpty then none
  else
    match st.lastError key with
    | none => none
    | some c =>
      some { status := if c.status ≠ 0 then c.status else 429,
             headers := c.headers, bodyText := c.bodyText, bodyJson := none }

/-- `getSynthetic429` (QuotaRefresher.js 329-341). -/
def QuotaRefresher.getSynthetic429 (modelId : String) (message : Option String) : Resp :=
  let mk := jsTrim modelId
  let body : Json := .obj [("error", .obj [
    ("message", .str (jsStrOr message
      ("Quota exhausted for model " ++ (if mk.isEmpty then "(unknown)" else mk)))),
    ("status", .str "RESOURCE_EXHAUSTED"),
    ("code", .num 429)])]
  { status := 429, headers := [("Content-Type", "application/json")],
    bodyText := jsonStringify body, bodyJson := some body }

structure PickOptions where
  now : Int
  excludeAccountIndices : List Nat := []
  cooldownWaitThresholdMs : Int := 5000
deriving Repr, DecidableEq

inductive PickDecision where
  | fastFail (reason : String) (response : Option Resp)
  | wait (waitMs : Int) (reason : String)
  | pick (accountIndex : Nat) (reason : String)
deriving Repr, DecidableEq

structure Candidate where
  accountIndex : Nat
  accountKey : String
  remainingPercent : Option Int
  cooldownUntilMs : Int
  cooldownActive : Bool
deriving Repr, DecidableEq

/-- `pickAccountIndex` (QuotaRefresher.js 343-469), over the account-key list
(`accounts[i] → getAccountKeyFromAccount`).  Returns the decision and the
state (whose `nextStart` cursor advances on a pick).  Candidate lists are
built in increasing index order, so the source's `sort` by index is the
identity and is omitted. -/
def QuotaRefresher.pickAccountIndex (st : QuotaState) (accounts : List String)
    (modelId : String) (opts : PickOptions) : PickDecision × QuotaState :=
  let modelKey := jsTrim modelId
  if modelKey.isEmpty || accounts.isEmpty then (.fastFail "no_accounts" none, st)
  else
    let remainingOf : String → Option Int := fun key =>
      match st.quota modelKey key with
      | some q => q.remainingPercent
      | none => none
    let knownCount := (accounts.filter (fun k => (remainingOf k).isSome)).length
    let nonZeroKnownCount := (accounts.filter (fun k =>
      match remainingOf k with
      | some r => decide (r > 0)
      | none => false)).length
    if knownCount = accounts.length ∧ nonZeroKnownCount = 0 then
      let resp :=
        match QuotaRefresher.getCachedErrorResponse st modelKey with
        | some c => c
        | none => QuotaRefresher.getSynthetic429 modelKey
            (some ("All accounts exhausted (0% quota) for model " ++ modelKey))
      (.fastFail "all_zero_known" (some resp), st)
    else
      let candidates : List Candidate :=
        (List.range accounts.length).filterMap (fun i =>
          if i ∈ opts.excludeAccountIndices then none
          else
            let key := accounts.getD i ""
            let r := remainingOf key
            if r = some 0 then none
            else
              let cd := ((st.quota modelKey key).bind (·.cooldownUntilMs)).getD 0
              some ⟨i, key, r, cd, decide (cd > opts.now)⟩)
      if candidates.isEmpty then
        let resp :=
          match QuotaRefresher.getCachedErrorResponse st modelKey with
          | some c => c
          | none => QuotaRefresher.getSynthetic429 modelKey
              (some ("No eligible accounts for model " ++ modelKey))
        (.fastFail "no_candidates" (some resp), st)
      else
        let active := candidates.filter (fun c => !c.cooldownActive)
        if active.isEmpty then
          let minRemaining := candidates.foldl (fun acc c =>
            let remaining := c.cooldownUntilMs - opts.now
            if remaining ≥ 0 then
              match acc with
              | none => some remaining
              | some m => some (min m remaining)
            else acc) (none : Option Int)
          match minRemaining with
          | some m =>
            if m ≤ opts.cooldownWaitThresholdMs then (.wait (max 0 m) "cooldown_short", st)
            else
              let resp :=
                match QuotaRefresher.getCachedErrorResponse st modelKey with
                | some c => c
                | none => QuotaRefresher.getSynthetic429 modelKey
                    (some ("All accounts are in cooldown for model " ++ modelKey))
              (.fastFail "cooldown_long" (some resp), st)
          | none =>
            let resp :=
              match QuotaRefresher.getCachedErrorResponse st modelKey with
              | some c => c
              | none => QuotaRefresher.getSynthetic429 modelKey
                  (some ("All accounts are in cooldown for model " ++ modelKey))
            (.fastFail "cooldown_long" (some resp), st)
        else
          let knownActive := active.filter (fun c =>
            c.remainingPercent.isSome && decide ((c.remainingPercent.getD 0) > 0))
          let finalists :=
            if !knownActive.isEmpty then
              let best := knownActive.foldl (fun b c => max b (c.remainingPercent.getD 0)) 0
              knownActive.filter (fun c => c.remainingPercent = some best)
            else active.filter (fun c => c.remainingPercent = none)
          let accountCount := accounts.length
          let nextStart := (st.nextStart modelKey).getD 0
          let startIndex : Int := (nextStart % accountCount + accountCount) % accountCount
          let picked :=
            match finalists.find? (fun c => (c.accountIndex : Int) ≥ startIndex) with
            | some c => some c
            | none =>
              match finalists.head? with
              | some c => some c
              | none => active.head?
          match picked with
          | none =>
            let resp :=
              match QuotaRefresher.getCachedErrorResponse st modelKey with
              | some c => c
              | none => QuotaRefresher.getSynthetic429 modelKey
                  (some ("Failed to pick an account for model " ++ modelKey))
            (.fastFail "no_pick" (some resp), st)
          | some p =>
            (.pick p.accountIndex "picked",
             { st with
               nextStart := fun m =>
                 if m = modelKey then some ((p.accountIndex : Int) + 1) else st.nextStart m })

-- ==================== Upstream orchestrator (QuotaRefresher.js UpstreamClient) ====================

/-- `AG2API_RETRY_DELAY_MS` default (QuotaRefresher.js 490). -/
def FIXED_RETRY_DELAY_MS : Int := 1200

/-- Observable orchestrator actions besides the returned response. -/
inductive OrchEvent where
  | sleep (ms : Int)
  | upstreamCall
deriving Repr, DecidableEq

/-- Outcome of handling one attempt's upstream response: `finished` = the
loop returns the response, `rotate` = the loop continues with the next
account, `threw` = a network error on the same-account retry propagates. -/
inductive StepResult where
  | finished (resp : Resp) (events : List OrchEvent) (st : QuotaState)
  | rotate (events : List OrchEvent) (st : QuotaState)
  | threw (events : List OrchEvent) (st : QuotaState)

def StepResult.response? : StepResult → Option Resp
  | .finished r _ _ => some r
  | .rotate _ _ => none
  | .threw _ _ => none

def StepResult.events : StepResult → List OrchEvent
  | .finished _ e _ => e
  | .rotate e _ => e
  | .threw e _ => e

def StepResult.state : StepResult → QuotaState
  | .finished _ _ s => s
  | .rotate _ s => s
  | .threw _ s => s

/-- The cooldown instant written after a 429
(`now + (retryMs != null ? max(0, retryMs) : FIXED_RETRY_DELAY_MS)`,
QuotaRefresher.js 929). -/
def cooldownAfter429 (now : Int) (retryMs : Option Int) : Int :=
  now + (match retryMs with | some r => max 0 r | none => FIXED_RETRY_DELAY_MS)

/-- The response-classification tail of `UpstreamClient.callV1Internal`'s
attempt loop (QuotaRefresher.js 868-1027), from the point where the attempt's
upstream response is in hand: pass 2xx and non-429 through unchanged; on 429
cache the last error, write the cooldown, then — single-account pool
(`maxAttempts = 1`) — return a long-hint 429 as-is, otherwise sleep and retry
the same account once, returning whatever the retry yields
(`retrySameAccount`, `none` = the retry threw a network error); with a larger
pool, rotate (after `FIXED_RETRY_DELAY_MS` when the hint is absent).
A single `now` stands for the loop's clock reads. -/
def UpstreamClient.handleAttemptResponse (st : QuotaState) (modelId accountName : String)
    (maxAttempts : Nat) (now : Int) (resp : Resp) (retrySameAccount : Option Resp) :
    StepResult :=
  let modelKnown := !(jsTrim modelId).isEmpty
  if resp.ok then .finished resp [] st
  else
    let st := if modelKnown then QuotaRefresher.cacheLastErrorResponse st modelId resp now else st
    if resp.status ≠ 429 then .finished resp [] st
    else
      let retryMs := parseRetryDelayMs resp.bodyJson
      let st :=
        if modelKnown then
          QuotaRefresher.setCooldownUntil st modelId accountName (some (cooldownAfter429 now retryMs))
        else st
      if maxAttempts = 1 then
        match retryMs with
        | some r =>
          if r > 5000 then .finished resp [] st
          else
            let delay := max 0 (r + 200)
            match retrySameAccount with
            | none => .threw [.sleep delay, .upstreamCall] st
            | some retryResp =>
              if retryResp.ok then .finished retryResp [.sleep delay, .upstreamCall] st
              else
                let st := if modelKnown then QuotaRefresher.cacheLastErrorResponse st modelId retryResp now else st
                .finished retryResp [.sleep delay, .upstreamCall] st
        | none =>
          let delay := FIXED_RETRY_DELAY_MS
          match retrySameAccount with
          | none => .threw [.sleep delay, .upstreamCall] st
          | some retryResp =>
            if retryResp.ok then .finished retryResp [.sleep delay, .upstreamCall] st
            else
              let st := if modelKnown then QuotaRefresher.cacheLastErrorResponse st modelId retryResp now else st
              .finished retryResp [.sleep delay, .upstreamCall] st
      else
        match retryMs with
        | none => .rotate [.sleep FIXED_RETRY_DELAY_MS] st
        | some _ => .rotate [] st

-- ==================== C4: quota fast-fail ====================

/-- C4: when every account has a known `remainingPercent` of zero for the
model, `pickAccountIndex` fast-fails with the cached last-error response when
present and the synthesized 429 otherwise, touching no state (the selector is
a pure function of the cache: no upstream call is issued); the synthesized
response has status 429 and a JSON body whose `error.status` is
`RESOURCE_EXHAUSTED`. -/
theorem quota_fast_fail
    (st : QuotaState) (accounts : List String) (modelId : String) (opts : PickOptions)
    (htrim : jsTrim modelId = modelId) (hne : modelId.isEmpty = false)
    (hacc : accounts ≠ [])
    (hzero : ∀ k ∈ accounts, ∃ q, st.quota modelId k = some q ∧ q.remainingPercent = some 0) :
    QuotaRefresher.pickAccountIndex st accounts modelId opts =
      (.fastFail "all_zero_known"
        (some (match QuotaRefresher.getCachedErrorResponse st modelId with
          | some c => c
          | none => QuotaRefresher.getSynthetic429 modelId
              (some ("All accounts exhausted (0% quota) for model " ++ modelId)))), st) ∧
    (∀ msg, (QuotaRefresher.getSynthetic429 modelId msg).status = 429 ∧
      ((QuotaRefresher.getSynthetic429 modelId msg).bodyJson.bind
        (fun j => (j.get? "error").bind (fun e => e.get? "status"))) =
          some (.str "RESOURCE_EXHAUSTED")) := by
  have hae : accounts.isEmpty = false := by
    cases accounts with
    | nil => exact absurd rfl hacc
    | cons a t => rfl
  constructor
  · simp only [QuotaRefresher.pickAccountIndex, htrim, hne, hae, Bool.or_self,
      Bool.false_eq_true, if_false]
    split
    · rfl
    · rename_i hcond
      exfalso
      apply hcond
      constructor
      · have : ∀ p : String → Bool, (∀ a ∈ accounts, p a = true) →
            (accounts.filter p).length = accounts.length := by
          intro p hp
          rw [List.filter_eq_self.mpr hp]
        apply this
        intro a ha
        obtain ⟨q, hq, hr⟩ := hzero a ha
        simp [hq, hr]
      · have : ∀ p : String → Bool, (∀ a ∈ accounts, p a = false) →
            (accounts.filter p).length = 0 := by
          intro p hp
          have : accounts.filter p = [] := by
            rw [List.filter_eq_nil_iff]
            intro a ha
            simp [hp a ha]
          rw [this]
          rfl
        apply this
        intro a ha
        obtain ⟨q, hq, hr⟩ := hzero a ha
        simp [hq, hr]
  · intro msg
    constructor
    · rfl
    · simp [QuotaRefresher.getSynthetic429, Json.get?, jsGet]

/-- A one-account pool whose snapshot for `gemini-2.5-flash` is exhausted. -/
def fastFailState : QuotaState :=
  { quota := fun m a =>
      if m = "gemini-2.5-flash" ∧ a = "a.json" then some { remainingPercent := some 0 } else none,
    lastError := fun _ => none,
    nextStart := fun _ => none }

/-- Witness for `quota_fast_fail`: one exhausted account, no cached error, so
the synthesized 429 is returned. -/
theorem quota_fast_fail_witness :
    (QuotaRefresher.pickAccountIndex fastFailState ["a.json"] "gemini-2.5-flash" { now := 0 }).1 =
      .fastFail "all_zero_known" (some (QuotaRefresher.getSynthetic429 "gemini-2.5-flash"
        (some "All accounts exhausted (0% quota) for model gemini-2.5-flash"))) := by
  have h := (quota_fast_fail fastFailState ["a.json"] "gemini-2.5-flash" { now := 0 }
    (by decide) (by decide) (by decide)
    (by
      intro k hk
      rw [List.mem_singleton] at hk
      subst hk
      exact ⟨{ remainingPercent := some 0 }, by decide, rfl⟩)).1
  exact (congrArg Prod.fst h).trans (by decide)

-- ==================== C5: cooldown write after a 429 ====================

/-- C5: on a 429 with a known (trimmed, nonempty) model id, the orchestrator
writes `cooldownUntilMs = now + max(0, parsedRetryDelayMs)` when the hint
parses and `now + FIXED_RETRY_DELAY_MS` otherwise, into the (model, account)
snapshot; every other snapshot field, and every other (model, account) entry,
is preserved. -/
theorem cooldown_write_on_429
    (st : QuotaState) (modelId accountName : String) (maxAttempts : Nat) (now : Int)
    (resp : Resp) (retry : Option Resp)
    (htrim : jsTrim modelId = modelId) (hne : modelId.isEmpty = false)
    (hstatus : resp.status = 429) :
    (∃ q', (UpstreamClient.handleAttemptResponse st modelId accountName maxAttempts now resp
        retry).state.quota modelId accountName = some q' ∧
      q'.cooldownUntilMs = some (cooldownAfter429 now (parseRetryDelayMs resp.bodyJson)) ∧
      q'.remainingFraction = ((st.quota modelId accountName).getD QuotaSnapshot.empty).remainingFraction ∧
      q'.remainingPercent = ((st.quota modelId accountName).getD QuotaSnapshot.empty).remainingPercent ∧
      q'.resetTime = ((st.quota modelId accountName).getD QuotaSnapshot.empty).resetTime ∧
      q'.resetTimeMs = ((st.quota modelId accountName).getD QuotaSnapshot.empty).resetTimeMs ∧
      q'.updatedAtMs = ((st.quota modelId accountName).getD QuotaSnapshot.empty).updatedAtMs) ∧
    (∀ m a, ¬(m = modelId ∧ a = accountName) →
      (UpstreamClient.handleAttemptResponse st modelId accountName maxAttempts now resp
          retry).state.quota m a = st.quota m a) ∧
    (∀ r, parseRetryDelayMs resp.bodyJson = some r →
      cooldownAfter429 now (parseRetryDelayMs resp.bodyJson) = now + max 0 r) ∧
    (parseRetryDelayMs resp.bodyJson = none →
      cooldownAfter429 now (parseRetryDelayMs resp.bodyJson) = now + FIXED_RETRY_DELAY_MS) := by
  have cacheq : ∀ (s : QuotaState) m r t,
      (QuotaRefresher.cacheLastErrorResponse s m r t).quota = s.quota := by
    intro s m r t
    simp only [QuotaRefresher.cacheLastErrorResponse]
    split <;> rfl
  have hok : resp.ok = false := by simp [Resp.ok, hstatus]
  have hmk : (jsTrim modelId).isEmpty = false := by rw [htrim]; exact hne
  have hquota : (UpstreamClient.handleAttemptResponse st modelId accountName maxAttempts now resp
      retry).state.quota =
      (QuotaRefresher.setCooldownUntil st modelId accountName
        (some (cooldownAfter429 now (parseRetryDelayMs resp.bodyJson)))).quota := by
    simp only [UpstreamClient.handleAttemptResponse, hok, hmk, hstatus, Bool.false_eq_true,
      if_false, Bool.not_false, if_true, ne_eq, not_true_eq_false]
    have hsetq : ∀ v, (QuotaRefresher.setCooldownUntil
        (QuotaRefresher.cacheLastErrorResponse st modelId resp now) modelId accountName v).quota =
        (QuotaRefresher.setCooldownUntil st modelId accountName v).quota := by
      intro v
      simp only [QuotaRefresher.setCooldownUntil, cacheq]
      split <;> simp [cacheq]
    split <;> (try split) <;> (try split) <;> (try split) <;> (try split) <;>
      simp [StepResult.state, cacheq, hsetq]
  refine ⟨?_, ?_, ?_, ?_⟩
  · rw [hquota]
    simp only [QuotaRefresher.setCooldownUntil, htrim, hne, Bool.false_eq_true, if_false]
    refine ⟨{ (st.quota modelId accountName).getD QuotaSnapshot.empty with
      cooldownUntilMs := some (cooldownAfter429 now (parseRetryDelayMs resp.bodyJson)) },
      ?_, rfl, rfl, rfl, rfl, rfl, rfl⟩
    simp [QuotaSnapshot.empty]
  · intro m a hma
    rw [hquota]
    simp only [QuotaRefresher.setCooldownUntil, htrim, hne, Bool.false_eq_true, if_false]
    simp [hma]
  · intro r hr
    simp [cooldownAfter429, hr]
  · intro hr
    simp [cooldownAfter429, hr]

/-- A 429 whose JSON body yields no retry hint, and the response of a retry. -/
def noHint429 : Resp := { status := 429, bodyText := "quota exceeded", bodyJson := some (.obj []) }

def secondAttempt429 : Resp :=
  { status := 429, bodyText := "quota exceeded again", bodyJson := some (.obj []) }

/-- A 429 whose body carries `RetryInfo.retryDelay = "1.203s"`. -/
def hint429 : Resp :=
  { status := 429,
    bodyJson := some (.obj [("error", .obj [("details", .arr
      [.obj [("@type", .str "RetryInfo"), ("retryDelay", .str "1.203s")]])])]) }

/-- Witness for `cooldown_write_on_429`: no hint, so the cooldown lands at
`now + FIXED_RETRY_DELAY_MS = 1000 + 1200`. -/
theorem cooldown_write_on_429_witness :
    ∃ q', (UpstreamClient.handleAttemptResponse QuotaState.empty "gemini-2.5-flash" "a.json" 1
        1000 noHint429 none).state.quota "gemini-2.5-flash" "a.json" = some q' ∧
      q'.cooldownUntilMs = some 2200 := by
  obtain ⟨q', hq, hcool, -, -, -, -, -⟩ :=
    (cooldown_write_on_429 QuotaState.empty "gemini-2.5-flash" "a.json" 1 1000 noHint429 none
      (by decide) (by decide) rfl).1
  exact ⟨q', hq, hcool.trans (by decide)⟩

-- ==================== C2: single-account 429 retry policy ====================

/-- C2 (counterexample): with a pool of one account and a 429 whose body has
no parseable retry hint, the orchestrator does NOT return the 429 as-is with
no sleep — it sleeps `FIXED_RETRY_DELAY_MS` and retries the same account,
returning the retry's (different) response. -/
theorem single_pool_429_no_hint_counterexample :
    (UpstreamClient.handleAttemptResponse QuotaState.empty "gemini-2.5-flash" "a.json" 1 1000
        noHint429 (some secondAttempt429)).events = [.sleep 1200, .upstreamCall] ∧
    (UpstreamClient.handleAttemptResponse QuotaState.empty "gemini-2.5-flash" "a.json" 1 1000
        noHint429 (some secondAttempt429)).response? = some secondAttempt429 ∧
    secondAttempt429 ≠ noHint429 := by
  decide

/-- C2 (amended): with a pool of exactly one account and a 429 first attempt:
a parsed hint ≤ 5000 ms sleeps `hint + 200` ms and retries the same account
once, returning the second response as-is (in particular a second 429); a
hint > 5000 ms returns the 429 as-is with no sleep; an absent hint sleeps
`FIXED_RETRY_DELAY_MS` and retries the same account once, returning the
second response as-is. -/
theorem single_pool_429_retry (st : QuotaState) (modelId accountName : String) (now : Int)
    (first retryResp : Resp) (hstatus : first.status = 429) :
    (∀ r, parseRetryDelayMs first.bodyJson = some r → r ≤ 5000 →
      (UpstreamClient.handleAttemptResponse st modelId accountName 1 now first
          (some retryResp)).response? = some retryResp ∧
      (UpstreamClient.handleAttemptResponse st modelId accountName 1 now first
          (some retryResp)).events = [.sleep (max 0 (r + 200)), .upstreamCall]) ∧
    (∀ r, parseRetryDelayMs first.bodyJson = some r → r > 5000 →
      (UpstreamClient.handleAttemptResponse st modelId accountName 1 now first
          (some retryResp)).response? = some first ∧
      (UpstreamClient.handleAttemptResponse st modelId accountName 1 now first
          (some retryResp)).events = []) ∧
    (parseRetryDelayMs first.bodyJson = none →
      (UpstreamClient.handleAttemptResponse st modelId accountName 1 now first
          (some retryResp)).response? = some retryResp ∧
      (UpstreamClient.handleAttemptResponse st modelId accountName 1 now first
          (some retryResp)).events = [.sleep FIXED_RETRY_DELAY_MS, .upstreamCall]) := by
  have hok : first.ok = false := by simp [Resp.ok, hstatus]
  refine ⟨?_, ?_, ?_⟩
  · intro r hr hle
    constructor <;>
      (simp only [UpstreamClient.handleAttemptResponse, hok, hstatus, hr, Bool.false_eq_true,
        if_false, ne_eq, not_true_eq_false, if_true]
       rw [if_neg (by omega : ¬r > 5000)]
       split <;> simp [StepResult.response?, StepResult.events])
  · intro r hr hgt
    constructor <;>
      (simp only [UpstreamClient.handleAttemptResponse, hok, hstatus, hr, Bool.false_eq_true,
        if_false, ne_eq, not_true_eq_false, if_true]
       rw [if_pos hgt]
       simp [StepResult.response?, StepResult.events])
  · intro hr
    constructor <;>
      (simp only [UpstreamClient.handleAttemptResponse, hok, hstatus, hr, Bool.false_eq_true,
        if_false, ne_eq, not_true_eq_false, if_true]
       split <;> simp [StepResult.response?, StepResult.events])

/-- Witness for `single_pool_429_retry`: a `"1.203s"` hint sleeps
`1203 + 200` ms and retries once. -/
theorem single_pool_429_retry_witness :
    hint429.status = 429 ∧ parseRetryDelayMs hint429.bodyJson = some 1203 ∧
    (UpstreamClient.handleAttemptResponse QuotaState.empty "m" "a" 1 0 hint429
        (some secondAttempt429)).events = [.sleep 1403, .upstreamCall] :=
  ⟨rfl, by decide,
   by
    have h := (single_pool_429_retry QuotaState.empty "m" "a" 0 hint429 secondAttempt429 rfl).1
      1203 (by decide) (by decide)
    exact h.2.trans (by decide)⟩

-- ==================== C6: non-429 passthrough (orchestrator + HTTP surface) ====================

def asciiLowerChar (c : Char) : Char :=
  if 'A' ≤ c ∧ c ≤ 'Z' then Char.ofNat (c.toNat + 32) else c

def lowerStr (s : String) : String := String.mk (s.data.map asciiLowerChar)

/-- Assoc-list insert with JS object-assignment semantics: overwrite an
existing key in place, else append. -/
def jsObjInsert {α : Type} (fields : List (String × α)) (key : String) (v : α) :
    List (String × α) :=
  match fields with
  | [] => [(key, v)]
  | (k, w) :: rest => if k = key then (k, v) :: rest else (k, w) :: jsObjInsert rest key v

/-- `delete obj[key]`. -/
def jsObjDelete {α : Type} (fields : List (String × α)) (key : String) : List (String × α) :=
  fields.filter (fun kv => kv.1 ≠ key)

/-- `headersToObject` (geminiApi.js 167-176): copy all (lowercased) header
entries into an object, then delete `content-encoding` and `content-length`. -/
def headersToObject (headers : List (String × String)) : List (String × String) :=
  jsObjDelete
    (jsObjDelete (headers.foldl (fun acc kv => jsObjInsert acc kv.1 kv.2) []) "content-encoding")
    "content-length"

/-- Fetch `Headers.get` (case-insensitive; our header names are stored
lowercased). -/
def headerGet (headers : List (String × String)) (name : String) : Option String :=
  (headers.find? (fun kv => lowerStr kv.1 == lowerStr name)).map (·.2)

/-- Exact-key object lookup (`respHeaders["content-type"]`). -/
def headerAt (fields : List (String × String)) (key : String) : Option String :=
  (fields.find? (fun kv => kv.1 == key)).map (fun kv => kv.2)

/-- Modelled from the spec: `unwrapResponse` lives in `transform/gemini`,
which is not under `src/`; per the spec, "Responses and SSE chunks are
unwrapped by reading `chunk.response || chunk`". -/
def unwrapResponse (j : Json) : Json :=
  match j.get? "response" with
  | some v => if jsTruthy v then v else j
  | none => j

inductive SurfaceBody where
  | raw (bodyText : String)
  | json (j : Json)
deriving Repr, DecidableEq

structure SurfaceResult where
  status : Int
  headers : List (String × String)
  body : SurfaceBody
deriving Repr, DecidableEq

/-- The response-forwarding slice of `GeminiApi.handleGenerate`
(geminiApi.js 367-425) for a non-streaming upstream response: the `!ok`
passthrough branch and the `application/json` unwrap branch (`none` = one of
the SSE/stream branches, or a JSON body that fails to parse, neither of which
any claim touches). -/
def GeminiApi.geminiRespond (resp : Resp) : Option SurfaceResult :=
  if !resp.ok then
    some { status := resp.status, headers := headersToObject resp.headers,
           body := .raw resp.bodyText }
  else
    let ct := (headerGet resp.headers "content-type").getD ""
    if containsChars ct.data "application/json".data then
      match resp.bodyJson with
      | some payload =>
        let respHeaders := headersToObject resp.headers
        let respHeaders :=
          if !strTruthy? (headerAt respHeaders "content-type") &&
             !strTruthy? (headerAt respHeaders "Content-Type") then
            jsObjInsert respHeaders "Content-Type" "application/json"
          else respHeaders
        some { status := resp.status, headers := respHeaders,
               body := .json (unwrapResponse payload) }
      | none => none
    else none

theorem jsObjInsert_append {α : Type} (acc : List (String × α)) (k : String) (v : α)
    (h : ∀ kv ∈ acc, kv.1 ≠ k) : jsObjInsert acc k v = acc ++ [(k, v)] := by
  induction acc with
  | nil => rfl
  | cons kv rest ih =>
    have hk : kv.1 ≠ k := h kv (List.mem_cons_self kv rest)
    simp only [jsObjInsert, hk, if_false, List.cons_append]
    rw [ih]
    intro kv' hkv'
    exact h kv' (List.mem_cons_of_mem kv hkv')

theorem foldl_jsObjInsert {α : Type} :
    ∀ (l acc : List (String × α)), ((acc ++ l).map Prod.fst).Nodup →
      l.foldl (fun a kv => jsObjInsert a kv.1 kv.2) acc = acc ++ l := by
  intro l
  induction l with
  | nil => intro acc _; simp
  | cons kv rest ih =>
    intro acc hnd
    have hne : ∀ kv' ∈ acc, kv'.1 ≠ kv.1 := by
      intro kv' hkv' heq
      rw [List.map_append] at hnd
      have hdisj := (List.nodup_append.mp hnd).2.2
      have h1 : kv'.1 ∈ acc.map Prod.fst := List.mem_map_of_mem Prod.fst hkv'
      have h2 : kv'.1 ∈ (kv :: rest).map Prod.fst := by simp [heq]
      exact hdisj h1 h2
    have step : jsObjInsert acc kv.1 kv.2 = acc ++ [kv] := by
      have := jsObjInsert_append acc kv.1 kv.2 hne
      simpa using this
    simp only [List.foldl_cons, step]
    have : (acc ++ [kv]) ++ rest = acc ++ kv :: rest := by simp
    rw [ih (acc ++ [kv]) (by simpa using hnd)]
    simp

/-- C6 (amended): a non-429 upstream response is returned by the orchestrator
immediately — no sleep, no rotation, no further attempt; the HTTP surface
forwards a non-2xx (error) response with identical status and body and with
headers identical except that `content-encoding` and `content-length` are
removed; a 2xx response keeps its status but its body is translated (see the
counterexample for the unwrap). -/
theorem non429_passthrough
    (st : QuotaState) (modelId accountName : String) (maxAttempts : Nat) (now : Int)
    (resp : Resp) (retry : Option Resp) (h429 : resp.status ≠ 429) :
    (UpstreamClient.handleAttemptResponse st modelId accountName maxAttempts now resp
        retry).response? = some resp ∧
    (UpstreamClient.handleAttemptResponse st modelId accountName maxAttempts now resp
        retry).events = [] ∧
    (∀ e : Resp, e.ok = false → GeminiApi.geminiRespond e =
      some { status := e.status, headers := headersToObject e.headers,
             body := .raw e.bodyText }) ∧
    (∀ hs : List (String × String), (hs.map Prod.fst).Nodup →
      headersToObject hs =
        hs.filter (fun kv => kv.1 != "content-encoding" && kv.1 != "content-length")) ∧
    (∀ e : Resp, ∀ r : SurfaceResult, GeminiApi.geminiRespond e = some r →
      r.status = e.status) := by
  refine ⟨?_, ?_, ?_, ?_, ?_⟩
  · simp only [UpstreamClient.handleAttemptResponse]
    split
    · rfl
    · split
      · simp [h429, StepResult.response?]
      · simp [h429, StepResult.response?]
  · simp only [UpstreamClient.handleAttemptResponse]
    split
    · rfl
    · split
      · simp [h429, StepResult.events]
      · simp [h429, StepResult.events]
  · intro e he
    simp [GeminiApi.geminiRespond, he]
  · intro hs hnd
    unfold headersToObject
    rw [foldl_jsObjInsert hs [] (by simpa using hnd)]
    simp only [List.nil_append, jsObjDelete]
    rw [List.filter_filter]
    apply List.filter_congr
    intro kv _
    simp only [ne_eq, decide_not, Bool.and_comm]
    rfl
  · intro e r hr
    simp only [GeminiApi.geminiRespond] at hr
    split at hr
    · simp at hr; rw [← hr]
    · split at hr
      · split at hr
        · simp at hr; rw [← hr]
        · exact absurd hr (by simp)
      · exact absurd hr (by simp)

/-- A 200 upstream response whose JSON body is the `{response: ...}` envelope. -/
def wrappedPayload : Json := .obj [("candidates", .arr [])]

def ok200Wrapped : Resp :=
  { status := 200, headers := [("content-type", "application/json")],
    bodyText := jsonStringify (.obj [("response", wrappedPayload)]),
    bodyJson := some (.obj [("response", wrappedPayload)]) }

/-- C6 (counterexample): a 2xx JSON response is NOT forwarded with an
identical body — the Gemini surface unwraps the `{response: ...}` envelope,
so the forwarded body differs from the upstream body (both as JSON and as raw
text). -/
theorem non429_passthrough_counterexample :
    (GeminiApi.geminiRespond ok200Wrapped).map SurfaceResult.body =
      some (.json wrappedPayload) ∧
    some (SurfaceBody.json wrappedPayload) ≠ ok200Wrapped.bodyJson.map SurfaceBody.json ∧
    SurfaceBody.json wrappedPayload ≠ .raw ok200Wrapped.bodyText := by
  decide

def err400 : Resp := { status := 400, bodyText := "bad request", bodyJson := none }

/-- Witness for `non429_passthrough` at a concrete 400 response. -/
theorem non429_passthrough_witness :
    (UpstreamClient.handleAttemptResponse QuotaState.empty "m" "a" 2 0 err400
        none).response? = some err400 ∧
    GeminiApi.geminiRespond err400 =
      some { status := 400, headers := [], body := .raw "bad request" } := by
  have h := non429_passthrough QuotaState.empty "m" "a" 2 0 err400 none (by decide)
  exact ⟨h.1, (h.2.2.1 err400 (by decide)).trans (by decide)⟩

-- ==================== C7: rotation cursor clamp (AuthManager.js) ====================

/-- One pooled account: the credential file's basename (its identity in the
pool) and the stored e-mail. -/
structure Account where
  fileName : String
  email : Option String
deriving Repr, DecidableEq

/-- The two rotation groups (`normalizeQuotaGroup` maps "claude" to claude
and every other string to gemini). -/
inductive QGroup where
  | claude | gemini
deriving Repr, DecidableEq

/-- `AuthManager` pool state: the account list and the per-group cursors. -/
structure PoolState where
  accounts : List Account
  claudeIndex : Nat
  geminiIndex : Nat
deriving Repr, DecidableEq

def PoolState.getCurrentAccountIndex (st : PoolState) : QGroup → Nat
  | .claude => st.claudeIndex
  | .gemini => st.geminiIndex

def PoolState.setCurrentAccountIndex (st : PoolState) (g : QGroup) (i : Nat) : PoolState :=
  match g with
  | .claude => { st with claudeIndex := i }
  | .gemini => { st with geminiIndex := i }

/-- `loadAccounts` resets both cursors to 0 (AuthManager.js 220-222). -/
def loadedPool (accounts : List Account) : PoolState := ⟨accounts, 0, 0⟩

def endsWithStr (s suffix : String) : Bool :=
  leadsWith suffix.data.reverse s.data.reverse

/-- `sanitizeCredentialFileName` (AuthManager.js 72-82): `none` = throws. -/
def sanitizeCredentialFileName (fileName : String) : Option String :=
  let name := jsTrim fileName
  if name.isEmpty then none
  else if containsChars name.data "/".data || containsChars name.data "\\".data ||
      containsChars name.data "..".data then none
  else if !endsWithStr name ".json" then none
  else some name

/-- `findIndex` over the pool by file basename. -/
def findAccountIdx : List Account → String → Option Nat
  | [], _ => none
  | a :: rest, name =>
    if a.fileName = name then some 0 else (findAccountIdx rest name).map (· + 1)

theorem findAccountIdx_lt {l : List Account} {n : String} {i : Nat}
    (h : findAccountIdx l n = some i) : i < l.length := by
  induction l generalizing i with
  | nil => simp [findAccountIdx] at h
  | cons a rest ih =>
    simp only [findAccountIdx] at h
    split at h
    · simp at h; simp [List.length_cons]; omega
    · match hr : findAccountIdx rest n with
      | none => rw [hr] at h; simp at h
      | some j =>
        rw [hr] at h
        simp at h
        have := ih hr
        simp [List.length_cons]
        omega

/-- The cursor adjustment `deleteAccountByFile` applies per group
(AuthManager.js 204-215). -/
def deleteCursorUpdate (idx newLen current : Nat) : Nat :=
  if newLen = 0 then 0
  else if idx < current then current - 1
  else if idx = current then min current (newLen - 1)
  else current

/-- `deleteAccountByFile` (AuthManager.js 185-218): sanitize (a failure
throws, leaving the state unchanged), find by basename (absent leaves the
state unchanged), remove the account, then adjust both cursors. -/
def AuthManager.deleteAccountByFile (st : PoolState) (fileName : String) : PoolState :=
  match sanitizeCredentialFileName fileName with
  | none => st
  | some safeName =>
    match findAccountIdx st.accounts safeName with
    | none => st
    | some idx =>
      let accounts := st.accounts.eraseIdx idx
      { accounts := accounts,
        claudeIndex := deleteCursorUpdate idx accounts.length st.claudeIndex,
        geminiIndex := deleteCursorUpdate idx accounts.length st.geminiIndex }

/-- `clampIndex` (AuthManager.js 484-488). -/
def clampIndex (len idx : Nat) : Nat := if len = 0 then 0 else min idx (len - 1)

/-- `addAccount` (AuthManager.js 379-503), cursor-relevant slice.  The
duplicate-e-mail search may consult the user-info endpoint for accounts with
no stored e-mail, so its result is passed in as `matchIdx` (quantifying over
it covers every environment): an in-range match updates that slot in place
(possibly renaming its file), anything else appends.  Cursors are re-clamped
from their previous values, resetting to 0 only when the pool was empty. -/
def AuthManager.addAccount (st : PoolState) (newAcct : Account) (matchIdx : Option Nat) :
    PoolState :=
  let hadAccountsBefore := !st.accounts.isEmpty
  let previousClaude := st.claudeIndex
  let previousGemini := st.geminiIndex
  let accounts :=
    match matchIdx with
    | some i => if i < st.accounts.length then st.accounts.set i newAcct
                else st.accounts ++ [newAcct]
    | none => st.accounts ++ [newAcct]
  if !hadAccountsBefore then ⟨accounts, 0, 0⟩
  else ⟨accounts, clampIndex accounts.length previousClaude,
        clampIndex accounts.length previousGemini⟩

/-- `rotateAccount` (AuthManager.js 171-183): no-op for pools of size ≤ 1,
otherwise advance modulo the pool size. -/
def AuthManager.rotateAccount (st : PoolState) (g : QGroup) : PoolState :=
  if st.accounts.length ≤ 1 then st
  else st.setCurrentAccountIndex g ((st.getCurrentAccountIndex g + 1) % st.accounts.length)

inductive PoolOp where
  | add (acct : Account) (matchIdx : Option Nat)
  | delete (fileName : String)
  | rotate (g : QGroup)
deriving Repr, DecidableEq

def applyPoolOp (st : PoolState) : PoolOp → PoolState
  | .add acct matchIdx => AuthManager.addAccount st acct matchIdx
  | .delete fileName => AuthManager.deleteAccountByFile st fileName
  | .rotate g => AuthManager.rotateAccount st g

/-- The cursor invariant: `0 ≤ c < max(1, |pool|)` for both groups. -/
def cursorInv (st : PoolState) : Prop :=
  st.claudeIndex < max 1 st.accounts.length ∧ st.geminiIndex < max 1 st.accounts.length

theorem clampIndex_lt (len idx : Nat) : clampIndex len idx < max 1 len := by
  unfold clampIndex
  split
  · omega
  · have := Nat.min_le_right idx (len - 1)
    omega

theorem deleteCursorUpdate_lt (idx len c : Nat) (hc : c < max 1 len) (hidx : idx < len) :
    deleteCursorUpdate idx (len - 1) c < max 1 (len - 1) := by
  unfold deleteCursorUpdate
  split
  · omega
  · split
    · omega
    · split
      · have := Nat.min_le_right c (len - 1 - 1)
        omega
      · omega

theorem applyPoolOp_preserves (st : PoolState) (op : PoolOp) (h : cursorInv st) :
    cursorInv (applyPoolOp st op) := by
  obtain ⟨hc, hg⟩ := h
  match op with
  | .rotate g =>
    simp only [applyPoolOp, AuthManager.rotateAccount]
    split
    · exact ⟨hc, hg⟩
    · rename_i hlen
      have hpos : 0 < st.accounts.length := by omega
      cases g
      · have hm := Nat.mod_lt (st.claudeIndex + 1) hpos
        constructor <;>
          simp only [PoolState.setCurrentAccountIndex, PoolState.getCurrentAccountIndex] <;>
          omega
      · have hm := Nat.mod_lt (st.geminiIndex + 1) hpos
        constructor <;>
          simp only [PoolState.setCurrentAccountIndex, PoolState.getCurrentAccountIndex] <;>
          omega
  | .add acct matchIdx =>
    simp only [applyPoolOp, AuthManager.addAccount]
    split
    · exact ⟨by simp, by simp⟩
    · exact ⟨clampIndex_lt _ _, clampIndex_lt _ _⟩
  | .delete fileName =>
    simp only [applyPoolOp, AuthManager.deleteAccountByFile]
    split
    · exact ⟨hc, hg⟩
    · split
      · exact ⟨hc, hg⟩
      · rename_i safeName _ idx hfind
        have hidx : idx < st.accounts.length := findAccountIdx_lt hfind
        have herase : (st.accounts.eraseIdx idx).length = st.accounts.length - 1 := by
          rw [List.length_eraseIdx]
          simp [hidx]
        constructor <;> simp only [herase] <;>
          exact deleteCursorUpdate_lt idx st.accounts.length _ (by omega) hidx

/-- C7: after any finite sequence of `addAccount`, `deleteAccountByFile` and
`rotateAccount` operations starting from a loaded pool, both group cursors
satisfy `0 ≤ c < max(1, |pool|)` (the lower bound is inherent to `Nat`). -/
theorem rotation_cursor_clamp (initial : List Account) (ops : List PoolOp) :
    cursorInv (ops.foldl applyPoolOp (loadedPool initial)) := by
  suffices h : ∀ st, cursorInv st → cursorInv (ops.foldl applyPoolOp st) by
    exact h _ ⟨by simp [loadedPool], by simp [loadedPool]⟩
  induction ops with
  | nil => intro st h; exact h
  | cons op rest ih => intro st h; exact ih _ (applyPoolOp_preserves st op h)


/-- Well-formedness checker for block events: a `content_block_start` must
open block `next` when no block is open, deltas and stops must carry the open
block's index, and a stop advances `next` by one.  Returns the final
(next, open) state when the trace is accepted. -/
def checkFrom : Nat → Option Nat → List SEvent → Option (Nat × Option Nat)
  | next, opn, [] => some (next, opn)
  | next, opn, e :: rest =>
    match e, opn with
    | .blockStart i _, none => if i = next then checkFrom next (some i) rest else none
    | .blockStart _ _, some _ => none
    | .blockDelta i _, some j => if i = j then checkFrom next opn rest else none
    | .blockDelta _ _, none => none
    | .blockStop i, some j => if i = j then checkFrom (i + 1) none rest else none
    | .blockStop _, none => none
    | .messageStart _ _ _, _ => checkFrom next opn rest
    | .messageDelta _ _, _ => checkFrom next opn rest
    | .messageStop, _ => checkFrom next opn rest

/-- The indices carried by the `content_block_stop` events of a trace. -/
def stopIndices (evs : List SEvent) : List Nat :=
  evs.filterMap (fun e => match e with | .blockStop i => some i | _ => none)

/-- The checker state corresponding to a streaming-machine state. -/
def openOf (st : SState) : Option Nat :=
  if st.blockType = .bnone then none else some st.blockIndex

theorem checkFrom_append (e1 : List SEvent) : ∀ (next : Nat) (opn : Option Nat) (e2 : List SEvent),
    checkFrom next opn (e1 ++ e2) =
      (checkFrom next opn e1).bind (fun p => checkFrom p.1 p.2 e2) := by
  induction e1 with
  | nil => intro next opn e2; rfl
  | cons e rest ih =>
    intro next opn e2
    match e, opn with
    | .blockStart i _, none =>
      simp only [List.cons_append, checkFrom]
      split <;> simp [ih]
    | .blockStart _ _, some _ => rfl
    | .blockDelta i _, some j =>
      simp only [List.cons_append, checkFrom]
      split <;> simp [ih]
    | .blockDelta _ _, none => rfl
    | .blockStop i, some j =>
      simp only [List.cons_append, checkFrom]
      split <;> simp [ih]
    | .blockStop _, none => rfl
    | .messageStart _ _ _, _ => simp only [List.cons_append, checkFrom]; exact ih _ _ _
    | .messageDelta _ _, _ => simp only [List.cons_append, checkFrom]; exact ih _ _ _
    | .messageStop, _ => simp only [List.cons_append, checkFrom]; exact ih _ _ _

theorem endBlock_check (st : SState) :
    checkFrom st.blockIndex (openOf st) (StreamingState.endBlock st).2 =
      some ((StreamingState.endBlock st).1.blockIndex, openOf (StreamingState.endBlock st).1) := by
  simp only [StreamingState.endBlock, openOf]
  split
  · simp_all [checkFrom]
  · split <;> simp_all [checkFrom]

theorem startBlock_check (st : SState) (t : SBlockType) (cb : CBlock) (ht : t ≠ .bnone) :
    checkFrom st.blockIndex (openOf st) (StreamingState.startBlock st t cb).2 =
      some ((StreamingState.startBlock st t cb).1.blockIndex,
            openOf (StreamingState.startBlock st t cb).1) := by
  simp only [StreamingState.startBlock]
  split
  · rename_i hbt
    rw [checkFrom_append]
    rw [endBlock_check st]
    simp only [StreamingState.endBlock, openOf]
    split
    · simp_all [checkFrom]
    · split <;> simp_all [checkFrom]
  · rename_i hbt
    simp only [Bool.not_eq_true, bne_eq_false_iff_eq] at hbt
    simp [checkFrom, openOf, hbt, ht]

theorem signatureBlock_check (st : SState) (sig : String) (h : st.blockType = .bnone) :
    checkFrom st.blockIndex (openOf st) (StreamingState.signatureBlock st sig).2 =
      some ((StreamingState.signatureBlock st sig).1.blockIndex,
            openOf (StreamingState.signatureBlock st sig).1) := by
  simp [StreamingState.signatureBlock, openOf, h, checkFrom]

theorem endBlock_bnone (st : SState) : (StreamingState.endBlock st).1.blockType = .bnone := by
  simp only [StreamingState.endBlock]
  split <;> simp_all

theorem flushTrailing_check (st : SState) :
    checkFrom st.blockIndex (openOf st) (StreamingState.flushTrailing st).2 =
      some ((StreamingState.flushTrailing st).1.blockIndex,
            openOf (StreamingState.flushTrailing st).1) := by
  simp only [StreamingState.flushTrailing]
  split
  · rw [checkFrom_append, endBlock_check st, Option.some_bind]
    rw [signatureBlock_check (StreamingState.endBlock st).1 (st.trailingSignature.getD "")
      (endBlock_bnone st)]
    simp [StreamingState.signatureBlock, openOf]
  · simp [checkFrom]

theorem startBlock_state (st : SState) (t : SBlockType) (cb : CBlock) :
    (StreamingState.startBlock st t cb).1.blockType = t := by
  simp [StreamingState.startBlock]

theorem processThinking_check (st : SState) (t : String) :
    checkFrom st.blockIndex (openOf st) (PartProcessor.processThinking st t).2 =
      some ((PartProcessor.processThinking st t).1.blockIndex,
            openOf (PartProcessor.processThinking st t).1) := by
  simp only [PartProcessor.processThinking]
  split
  · rename_i h
    simp [checkFrom, openOf, h]
  · rw [checkFrom_append, startBlock_check st .bthinking _ (by simp), Option.some_bind]
    have ht := startBlock_state st .bthinking (.thinking "" none)
    simp [checkFrom, openOf, ht]

theorem processText_check (st : SState) (t : String) :
    checkFrom st.blockIndex (openOf st) (PartProcessor.processText st t).2 =
      some ((PartProcessor.processText st t).1.blockIndex,
            openOf (PartProcessor.processText st t).1) := by
  simp only [PartProcessor.processText]
  split
  · simp [checkFrom]
  · split
    · rename_i h
      simp [checkFrom, openOf, h]
    · rw [checkFrom_append, startBlock_check st .btext _ (by simp), Option.some_bind]
      have ht := startBlock_state st .btext (.text "")
      simp [checkFrom, openOf, ht]

theorem processFunctionCall_check (st : SState) (fc : FunctionCall) (sig : Option String) :
    checkFrom st.blockIndex (openOf st) (PartProcessor.processFunctionCall st fc sig).2 =
      some ((PartProcessor.processFunctionCall st fc sig).1.blockIndex,
            openOf (PartProcessor.processFunctionCall st fc sig).1) := by
  simp only [PartProcessor.processFunctionCall]
  rw [checkFrom_append, startBlock_check st .bfunction _ (by simp), Option.some_bind]
  have ht := startBlock_state st .bfunction
  split <;> split <;> simp [checkFrom, openOf, startBlock_state]

theorem process_check (st : SState) (p : Part) :
    checkFrom st.blockIndex (openOf st) (PartProcessor.process st p).2 =
      some ((PartProcessor.process st p).1.blockIndex,
            openOf (PartProcessor.process st p).1) := by
  simp only [PartProcessor.process]
  split
  · -- functionCall
    rw [checkFrom_append, flushTrailing_check st, Option.some_bind]
    exact processFunctionCall_check _ _ _
  · split
    · simp [checkFrom]
    · split
      · split <;> simp [checkFrom, openOf]
      · split
        · -- thinking
          rw [checkFrom_append, flushTrailing_check st, Option.some_bind]
          split <;> simpa [openOf] using processThinking_check (StreamingState.flushTrailing st).1 _
        · -- non-thought, non-empty
          split
          · -- with signature
            simp only [List.append_assoc, List.singleton_append]
            rw [checkFrom_append, flushTrailing_check st, Option.some_bind]
            rw [checkFrom_append, endBlock_check, Option.some_bind]
            rw [checkFrom_append, startBlock_check _ .btext _ (by simp), Option.some_bind]
            have hso : openOf (StreamingState.startBlock (StreamingState.endBlock
                (StreamingState.flushTrailing st).1).1 .btext (.text "")).1 =
                some (StreamingState.startBlock (StreamingState.endBlock
                (StreamingState.flushTrailing st).1).1 .btext (.text "")).1.blockIndex := by
              simp [openOf, startBlock_state]
            have hdelta : ∀ (n : Nat) (d : SDelta) (rest : List SEvent),
                checkFrom n (some n) (SEvent.blockDelta n d :: rest) =
                  checkFrom n (some n) rest := by
              intro n d rest
              simp [checkFrom]
            dsimp only
            rw [hso]
            refine Eq.trans (hdelta _ _ _) ?_
            rw [← hso, List.append_eq]
            rw [checkFrom_append, endBlock_check, Option.some_bind]
            rw [signatureBlock_check _ _ (endBlock_bnone _)]
          · rw [checkFrom_append, flushTrailing_check st, Option.some_bind]
            exact processText_check _ _

theorem emitMessageStart_check (st : SState) (raw : RawResponse) :
    checkFrom st.blockIndex (openOf st) (StreamingState.emitMessageStart st raw).2 =
      some ((StreamingState.emitMessageStart st raw).1.blockIndex,
            openOf (StreamingState.emitMessageStart st raw).1) := by
  simp only [StreamingState.emitMessageStart]
  split <;> simp [checkFrom, openOf]

theorem emitFinish_check (st : SState) (fr : Option String) (um : Option UsageMeta) :
    checkFrom st.blockIndex (openOf st) (StreamingState.emitFinish st fr um).2 =
      some ((StreamingState.emitFinish st fr um).1.blockIndex,
            openOf (StreamingState.emitFinish st fr um).1) := by
  simp only [StreamingState.emitFinish, List.append_assoc]
  rw [checkFrom_append, endBlock_check, Option.some_bind]
  split
  · rw [checkFrom_append, signatureBlock_check _ _ (endBlock_bnone _), Option.some_bind]
    split <;> (try split) <;> (try split) <;>
      simp [checkFrom, openOf, StreamingState.signatureBlock, endBlock_bnone st]
  · split <;> (try split) <;> (try split) <;> simp [checkFrom, openOf, endBlock_bnone st]

/-- One interaction with the streaming state machine, as driven by
`processSSELine`: a `message_start`, an upstream part, or a finish. -/
inductive StreamOp where
  | msgStart (raw : RawResponse)
  | part (p : Part)
  | finish (finishReason : Option String) (usageMetadata : Option UsageMeta)

def applyStreamOp (st : SState) : StreamOp → SState × List SEvent
  | .msgStart raw => StreamingState.emitMessageStart st raw
  | .part p => PartProcessor.process st p
  | .finish fr um => StreamingState.emitFinish st fr um

def runStream : SState → List StreamOp → SState × List SEvent
  | st, [] => (st, [])
  | st, op :: rest =>
    let (st1, e1) := applyStreamOp st op
    let (st2, e2) := runStream st1 rest
    (st2, e1 ++ e2)

theorem applyStreamOp_check (st : SState) (op : StreamOp) :
    checkFrom st.blockIndex (openOf st) (applyStreamOp st op).2 =
      some ((applyStreamOp st op).1.blockIndex, openOf (applyStreamOp st op).1) := by
  match op with
  | .msgStart raw => exact emitMessageStart_check st raw
  | .part p => exact process_check st p
  | .finish fr um => exact emitFinish_check st fr um

theorem runStream_check (ops : List StreamOp) : ∀ st : SState,
    checkFrom st.blockIndex (openOf st) (runStream st ops).2 =
      some ((runStream st ops).1.blockIndex, openOf (runStream st ops).1) := by
  induction ops with
  | nil => intro st; simp [runStream, checkFrom]
  | cons op rest ih =>
    intro st
    simp only [runStream]
    rw [checkFrom_append, applyStreamOp_check st op, Option.some_bind]
    exact ih _

theorem checkFrom_stops : ∀ (evs : List SEvent) (next : Nat) (opn : Option Nat)
    (next' : Nat) (opn' : Option Nat), (opn = none ∨ opn = some next) →
    checkFrom next opn evs = some (next', opn') →
    stopIndices evs = List.range' next (next' - next) ∧ next ≤ next' ∧
      (opn' = none ∨ opn' = some next') := by
  intro evs
  induction evs with
  | nil =>
    intro next opn next' opn' hinv h
    simp only [checkFrom] at h
    obtain ⟨h1, h2⟩ := Prod.mk.injEq .. ▸ Option.some.inj h
    subst h1
    subst h2
    refine ⟨by simp [stopIndices], le_refl _, ?_⟩
    rcases hinv with h | h <;> [exact Or.inl h; exact Or.inr h]
  | cons e rest ih =>
    intro next opn next' opn' hinv h
    cases e with
    | blockStart i t =>
      cases opn with
      | none =>
        simp only [checkFrom] at h
        split at h
        · rename_i hi
          subst hi
          obtain ⟨h1, h2, h3⟩ := ih i (some i) next' opn' (Or.inr rfl) h
          exact ⟨by simpa [stopIndices] using h1, h2, h3⟩
        · exact absurd h (by simp)
      | some j => simp [checkFrom] at h
    | blockDelta i d =>
      cases opn with
      | none => simp [checkFrom] at h
      | some j =>
        simp only [checkFrom] at h
        split at h
        · have hj : some j = some next := by
            rcases hinv with h' | h'
            · exact absurd h' (by simp)
            · exact h'
          cases Option.some.inj hj
          obtain ⟨h1, h2, h3⟩ := ih next (some next) next' opn' (Or.inr rfl) h
          exact ⟨by simpa [stopIndices] using h1, h2, h3⟩
        · exact absurd h (by simp)
    | blockStop i =>
      cases opn with
      | none => simp [checkFrom] at h
      | some j =>
        simp only [checkFrom] at h
        split at h
        · rename_i hi
          have hj : some j = some next := by
            rcases hinv with h' | h'
            · exact absurd h' (by simp)
            · exact h'
          cases Option.some.inj hj
          subst hi
          obtain ⟨h1, h2, h3⟩ := ih (i + 1) none next' opn' (Or.inl rfl) h
          refine ⟨?_, by omega, h3⟩
          have hsub : next' - i = (next' - (i + 1)) + 1 := by omega
          rw [hsub, List.range'_succ i (next' - (i + 1)) 1]
          simpa [stopIndices] using h1
        · exact absurd h (by simp)
    | messageStart a b c =>
      simp only [checkFrom] at h
      obtain ⟨h1, h2, h3⟩ := ih next opn next' opn' hinv h
      exact ⟨by simpa [stopIndices] using h1, h2, h3⟩
    | messageDelta a b =>
      simp only [checkFrom] at h
      obtain ⟨h1, h2, h3⟩ := ih next opn next' opn' hinv h
      exact ⟨by simpa [stopIndices] using h1, h2, h3⟩
    | messageStop =>
      simp only [checkFrom] at h
      obtain ⟨h1, h2, h3⟩ := ih next opn next' opn' hinv h
      exact ⟨by simpa [stopIndices] using h1, h2, h3⟩

/-- C9: over any sequence of streaming-machine interactions, the emitted
trace is block-well-formed — every `content_block_start` opens the next index
with no block open, every `content_block_delta` and `content_block_stop`
carries the open block's index — and the `content_block_stop` indices are
exactly 0, 1, 2, …, increasing by one per stop (standalone trailing-signature
blocks included). -/
theorem stream_block_index_invariant (ops : List StreamOp) :
    ∃ n o, checkFrom 0 none (runStream SState.init ops).2 = some (n, o) ∧
      stopIndices (runStream SState.init ops).2 = List.range n := by
  have h := runStream_check ops SState.init
  have h0 : SState.init.blockIndex = 0 := rfl
  have ho : openOf SState.init = none := rfl
  rw [h0, ho] at h
  refine ⟨_, _, h, ?_⟩
  obtain ⟨h1, h2, h3⟩ := checkFrom_stops _ 0 none _ _ (Or.inl rfl) h
  rw [List.range_eq_range']
  simpa using h1


/-- JS `a || b` on a possibly-undefined value: the value itself when truthy,
otherwise the fallback. -/
def jsOr (o : Option Json) (fallback : Json) : Json :=
  match o with
  | some v => if jsTruthy v then v else fallback
  | none => fallback

/-- A property whose value may be `undefined`; an undefined-valued property is
modelled by omission (as in the serialized wire form). -/
def optField (k : String) : Option Json → List (String × Json)
  | some v => [(k, v)]
  | none => []

/-- `Map.prototype.get` on a JSON-keyed map. -/
def jsMapGetJ (m : List (Json × Json)) (k : Json) : Option Json :=
  (m.find? (fun kv => kv.1 == k)).map (fun kv => kv.2)

/-- `Map.prototype.set`: overwrite in place, else append (insertion order). -/
def jsMapSetJ (m : List (Json × Json)) (k v : Json) : List (Json × Json) :=
  if (m.find? (fun kv => kv.1 == k)).isSome then
    m.map (fun kv => if kv.1 == k then (k, v) else kv)
  else m ++ [(k, v)]

/-- `Array.prototype.join` of already-coerced strings. -/
def joinWith (sep : String) : List String → String
  | [] => ""
  | [x] => x
  | x :: xs => x ++ sep ++ joinWith sep xs

/-- The `tool_result` content-map callback `c => c.text || JSON.stringify(c)`
followed by the element coercion of `join`; property access on `null` throws
(`none`). -/
def trElem : Json → Option String
  | .null => none
  | c =>
    let t := Json.get? c "text"
    some (if jsTruthy? t then jsToString (t.getD .null) else jsonStringify c)

/-- `content.map(c => c.text || JSON.stringify(c))` with coercion to strings;
`none` when any element throws. -/
def trElems : List Json → Option (List String)
  | [] => some []
  | c :: cs =>
    match trElem c, trElems cs with
    | some s, some ss => some (s :: ss)
    | _, _ => none

/-- One iteration of the content-item loop of `transformClaudeRequestIn`
(ClaudeTransformer.js 744-810): dispatch on `item.type`, returning the updated
`toolIdToName` map and the client parts pushed; `none` models a thrown
TypeError (property access on `null`). -/
def processItem (m : List (Json × Json)) (item : Json) :
    Option (List (Json × Json) × List Json) :=
  match item with
  | .null => none
  | _ =>
    let ty := Json.get? item "type"
    if ty = some (.str "text") then
      let text := jsOr (Json.get? item "text") (.str "")
      some (m, if text = .str "(no content)" then [] else [.obj [("text", text)]])
    else if ty = some (.str "thinking") then
      let sig := Json.get? item "signature"
      some (m, [.obj ([("text", jsOr (Json.get? item "thinking") (.str "")),
        ("thought", .bool true)] ++
        (if jsTruthy? sig then [("thoughtSignature", sig.getD .null)] else []))])
    else if ty = some (.str "redacted_thinking") then
      some (m, [.obj [("text", jsOr (Json.get? item "data") (.str "")),
        ("thought", .bool true)]])
    else if ty = some (.str "image") then
      let source := jsOr (Json.get? item "source") (.obj [])
      if Json.get? source "type" = some (.str "base64") then
        some (m, [.obj [("inlineData", .obj
          [("mimeType", jsOr (Json.get? source "media_type") (.str "image/png")),
           ("data", jsOr (Json.get? source "data") (.str ""))])]])
      else some (m, [])
    else if ty = some (.str "tool_use") then
      let idv := Json.get? item "id"
      let namev := Json.get? item "name"
      let m' := match idv, namev with
        | some i, some n => if jsTruthy i && jsTruthy n then jsMapSetJ m i n else m
        | _, _ => m
      let sig := Json.get? item "signature"
      some (m', [.obj ([("functionCall", .obj (optField "name" namev ++
          [("args", jsOr (Json.get? item "input") (.obj []))] ++ optField "id" idv))] ++
        (if jsTruthy? sig then [("thoughtSignature", sig.getD .null)] else []))])
    else if ty = some (.str "tool_result") then
      let tid := Json.get? item "tool_use_id"
      let g := tid.bind (fun k => jsMapGetJ m k)
      let funcName := if jsTruthy? g then g else tid
      match jsOr (Json.get? item "content") (.str "") with
      | .arr blocks =>
        match trElems blocks with
        | some ts => some (m, [.obj [("functionResponse", .obj (optField "name" funcName ++
            [("response", .obj [("result", .str (joinWith "\n" ts))])] ++ optField "id" tid))]])
        | none => none
      | c => some (m, [.obj [("functionResponse", .obj (optField "name" funcName ++
          [("response", .obj [("result", c)])] ++ optField "id" tid))]])
    else some (m, [])

/-- The content-item loop: fold `processItem` over a message's content array,
threading the `toolIdToName` map and concatenating the pushed parts. -/
def processItems (m : List (Json × Json)) : List Json → Option (List (Json × Json) × List Json)
  | [] => some (m, [])
  | item :: rest =>
    match processItem m item with
    | none => none
    | some (m', ps) =>
      match processItems m' rest with
      | none => none
      | some (m'', rest') => some (m'', ps ++ rest')

/-- One message of the `claudeReq.messages` loop: role mapping
(`assistant` → `model`) and content dispatch (array / string / other). -/
def transformMessage (m : List (Json × Json)) (msg : Json) :
    Option (List (Json × Json) × Json) :=
  match msg with
  | .null => none
  | _ =>
    let role0 := Json.get? msg "role"
    let role := if role0 = some (.str "assistant") then some (Json.str "model") else role0
    match Json.get? msg "content" with
    | some (.arr items) =>
      match processItems m items with
      | none => none
      | some (m', parts) => some (m', .obj (optField "role" role ++ [("parts", .arr parts)]))
    | some (.str s) =>
      some (m, .obj (optField "role" role ++ [("parts", .arr [.obj [("text", .str s)]])]))
    | _ => some (m, .obj (optField "role" role ++ [("parts", .arr [])]))

/-- The messages → contents portion of `transformClaudeRequestIn`, threading
the `toolIdToName` map across messages. -/
def transformClaudeContents (m : List (Json × Json)) :
    List Json → Option (List (Json × Json) × List Json)
  | [] => some (m, [])
  | msg :: rest =>
    match transformMessage m msg with
    | none => none
    | some (m', c) =>
      match transformClaudeContents m' rest with
      | none => none
      | some (m'', cs) => some (m'', c :: cs)

/-- A `tool_result` whose list content holds a block with a falsy `text` is
not rendered as the joined text fields: the block is JSON-stringified. -/
theorem tool_result_join_counterexample :
    processItem [] (Json.obj [("type", .str "tool_result"), ("tool_use_id", .str "t9"),
      ("content", .arr [Json.obj [("type", .str "text"), ("text", .str "")]])]) =
      some ([], [Json.obj [("functionResponse", Json.obj [("name", .str "t9"),
        ("response", Json.obj [("result", .str "\x7b\"type\":\"text\",\"text\":\"\"\x7d")]),
        ("id", .str "t9")])]]) ∧
    ("\x7b\"type\":\"text\",\"text\":\"\"\x7d" : String) ≠ "" := by
  decide

/-- C10: a `tool_result` item with tool_use_id `tid` and list content emits one
`functionResponse` part whose `name` is the `toolIdToName` entry for `tid` when
that lookup is truthy and the id string `tid` itself otherwise (in particular
when `tid` was never recorded by a preceding `tool_use`), whose `id` is `tid`,
and whose `response.result` joins with newlines each block's `text` when truthy
and the block's JSON serialization otherwise. -/
theorem tool_result_mapping (m : List (Json × Json)) (fields : List (String × Json))
    (tid : String) (blocks : List Json) (ts : List String) (r : Option Json)
    (htype : jsGet fields "type" = some (.str "tool_result"))
    (htid : jsGet fields "tool_use_id" = some (.str tid))
    (hcontent : jsGet fields "content" = some (.arr blocks))
    (hts : trElems blocks = some ts)
    (hlook : jsMapGetJ m (.str tid) = r) :
    processItem m (.obj fields) = some (m,
      [Json.obj [("functionResponse", Json.obj
        [("name", if jsTruthy? r then r.getD Json.null else Json.str tid),
         ("response", Json.obj [("result", Json.str (joinWith "\n" ts))]),
         ("id", Json.str tid)])]]) := by
  cases r with
  | none =>
    simp [processItem, Json.get?, htype, htid, hcontent, hlook, hts, jsOr, jsTruthy,
      jsTruthy?, optField]
  | some v =>
    have ha : jsTruthy (Json.arr blocks) = true := rfl
    by_cases hv : jsTruthy v
    · simp [processItem, Json.get?, htype, htid, hcontent, hlook, hts, jsOr, ha,
        jsTruthy?, optField, hv]
    · simp [processItem, Json.get?, htype, htid, hcontent, hlook, hts, jsOr, ha,
        jsTruthy?, optField, hv]

/-- Concrete `toolIdToName` map recorded from a preceding `tool_use`. -/
def c10wMap : List (Json × Json) := [(Json.str "t1", Json.str "myTool")]

/-- Concrete list content of the `tool_result`. -/
def c10wBlocks : List Json :=
  [Json.obj [("type", .str "text"), ("text", .str "hello")],
   Json.obj [("type", .str "text"), ("text", .str "world")]]

/-- Concrete `tool_result` item fields. -/
def c10wFields : List (String × Json) :=
  [("type", .str "tool_result"), ("tool_use_id", .str "t1"), ("content", .arr c10wBlocks)]

theorem tool_result_mapping_witness :
    jsGet c10wFields "type" = some (.str "tool_result") ∧
    jsGet c10wFields "tool_use_id" = some (.str "t1") ∧
    jsGet c10wFields "content" = some (.arr c10wBlocks) ∧
    trElems c10wBlocks = some ["hello", "world"] ∧
    jsMapGetJ c10wMap (.str "t1") = some (.str "myTool") ∧
    processItem c10wMap (.obj c10wFields) = some (c10wMap,
      [Json.obj [("functionResponse", Json.obj
        [("name", if jsTruthy? (some (Json.str "myTool")) then
            (some (Json.str "myTool")).getD Json.null else Json.str "t1"),
         ("response", Json.obj [("result", Json.str (joinWith "
" ["hello", "world"]))]),
         ("id", Json.str "t1")])]]) :=
  ⟨by decide, by decide, by decide, by decide, by decide,
   tool_result_mapping c10wMap c10wFields "t1" c10wBlocks ["hello", "world"]
     (some (.str "myTool")) (by decide) (by decide) (by decide) (by decide) (by decide)⟩


/-- ASCII uppercasing of one character (`String.prototype.toUpperCase` on the
ASCII range schema type names live in). -/
def upChar (c : Char) : Char :=
  if 97 ≤ c.toNat ∧ c.toNat ≤ 122 then Char.ofNat (c.toNat - 32) else c

/-- `String.prototype.toUpperCase`. -/
def upStr (s : String) : String := String.mk (s.data.map upChar)

/-- The `type` normalization of `uppercaseSchemaTypes`: uppercase a string,
uppercase the string elements of an array, leave anything else unchanged. -/
def upTypeVal : Json → Json
  | .str u => .str (upStr u)
  | .arr es => .arr (es.map (fun e => match e with | .str u => Json.str (upStr u) | e => e))
  | v => v

mutual

/-- `uppercaseSchemaTypes` (ClaudeTransformer.js 641-665): uppercase `type`
values (strings and string array elements), recurse into every other
object/array value. -/
def uppercaseSchemaTypes : Json → Json
  | .obj fs => .obj (upFields fs)
  | .arr xs => .arr (upList xs)
  | s => s

/-- `schema.map(uppercaseSchemaTypes)`. -/
def upList : List Json → List Json
  | [] => []
  | x :: xs => uppercaseSchemaTypes x :: upList xs

/-- The `normalized[key] = ...` loop of `uppercaseSchemaTypes`; the keys come
from `Object.entries` of one object, so they are pairwise distinct and each
assignment appends a fresh property. -/
def upFields : List (String × Json) → List (String × Json)
  | [] => []
  | (k, v) :: rest =>
    if k = "type" then (k, upTypeVal v) :: upFields rest
    else
      match v with
      | .obj gs => (k, .obj (upFields gs)) :: upFields rest
      | .arr xs => (k, .arr (upList xs)) :: upFields rest
      | w => (k, w) :: upFields rest

end

/-- The `validationFields` keys, in `Object.entries` order. -/
def valKeys : List String :=
  ["minLength", "maxLength", "minimum", "maximum", "minItems", "maxItems"]

/-- `fieldsToRemove` of `cleanJsonSchema`. -/
def fieldsToRemove : List String := ["$schema", "additionalProperties"]

/-- The `validations` list: one `label: value` string per validation field
present in the schema (template-literal string coercion). -/
def mkValidations (fs : List (String × Json)) : List String :=
  valKeys.filterMap (fun k => (jsGet fs k).map (fun v => k ++ ": " ++ jsToString v))

/-- `filtered[0] || value[0] || "string"`: collapse of a `type` array to a
single type (prefer the first non-"null" element, then the first element,
then "string"; `||` skips falsy candidates). -/
def typeCollapse (elems : List Json) : Json :=
  let filtered := elems.filter (fun v => !(v == Json.str "null"))
  if jsTruthy? filtered.head? then filtered.head?.getD .null
  else if jsTruthy? elems.head? then elems.head?.getD .null
  else .str "string"

/-- The tail of the object branch of `cleanJsonSchema`: add the default
`Validation: ...` description when validations exist and no truthy
description was kept, then uppercase the whole object. -/
def cleanFinish (validations : List String) (cleaned : List (String × Json)) : Json :=
  let cleaned2 :=
    if !validations.isEmpty && !(jsTruthy? (jsGet cleaned "description")) then
      jsObjInsert cleaned "description"
        (.str ("Validation: " ++ joinWith ", " validations))
    else cleaned
  uppercaseSchemaTypes (.obj cleaned2)

mutual

/-- `cleanJsonSchema` (ClaudeTransformer.js 587-636): primitives unchanged,
arrays mapped, objects cleaned entry by entry (with the collected
`validations`) and finished by `cleanFinish`. -/
def cleanJsonSchema : Json → Json
  | .obj fs => cleanFinish (mkValidations fs) (cleanFields (mkValidations fs) fs)
  | .arr xs => .arr (cleanList xs)
  | s => s

/-- `schema.map(cleanJsonSchema)`. -/
def cleanList : List Json → List Json
  | [] => []
  | x :: xs => cleanJsonSchema x :: cleanList xs

/-- The `for (const [key, value] of Object.entries(schema))` loop of
`cleanJsonSchema`: skip removed/validation keys, collapse `type` arrays,
flatten validations into `description`, recurse into object/array values.
The keys come from `Object.entries` of one object, so they are pairwise
distinct and each `cleaned[key] = ...` assignment appends a fresh property. -/
def cleanFields (validations : List String) : List (String × Json) → List (String × Json)
  | [] => []
  | (k, v) :: rest =>
    if fieldsToRemove.contains k || valKeys.contains k then cleanFields validations rest
    else if k = "format" then cleanFields validations rest
    else if k = "default" then cleanFields validations rest
    else if k = "uniqueItems" then cleanFields validations rest
    else if k = "type" then
      match v with
      | .arr es => ("type", typeCollapse es) :: cleanFields validations rest
      | .obj gs =>
        (k, cleanFinish (mkValidations gs) (cleanFields (mkValidations gs) gs)) ::
          cleanFields validations rest
      | w => (k, w) :: cleanFields validations rest
    else if k = "description" && !validations.isEmpty then
      (k, .str (jsToString v ++ " (" ++ joinWith ", " validations ++ ")")) ::
        cleanFields validations rest
    else
      match v with
      | .obj gs =>
        (k, cleanFinish (mkValidations gs) (cleanFields (mkValidations gs) gs)) ::
          cleanFields validations rest
      | .arr xs => (k, .arr (cleanList xs)) :: cleanFields validations rest
      | w => (k, w) :: cleanFields validations rest

end

/-- The object branch of `cleanJsonSchema` as a function of the field list;
`cleanJsonSchema (.obj fs) = cleanObjBody fs` definitionally. -/
def cleanObjBody (fs : List (String × Json)) : Json :=
  cleanFinish (mkValidations fs) (cleanFields (mkValidations fs) fs)

/-- Every key `cleanJsonSchema` drops from an object. -/
def badKeys : List String :=
  ["$schema", "additionalProperties", "minLength", "maxLength", "minimum",
   "maximum", "minItems", "maxItems", "format", "default", "uniqueItems"]

/-- Is the value neither an array nor an object? -/
def primitiveJson : Json → Bool
  | .arr _ => false
  | .obj _ => false
  | _ => true

mutual

/-- Fixed points of the cleaner: no dropped keys, `type` values are
uppercase-invariant strings, primitives, or cleaned objects (never arrays),
and all nested values are themselves cleaned. -/
def isCleaned : Json → Bool
  | .obj fs => isCleanedFields fs
  | .arr xs => isCleanedList xs
  | _ => true

def isCleanedList : List Json → Bool
  | [] => true
  | x :: xs => isCleaned x && isCleanedList xs

def isCleanedFields : List (String × Json) → Bool
  | [] => true
  | (k, v) :: rest =>
    !(badKeys.contains k) &&
    (if k = "type" then isCleanedType v else isCleaned v) &&
    isCleanedFields rest

/-- A cleaned `type` value: an uppercase-invariant string, a primitive, or a
cleaned object — never an array. -/
def isCleanedType : Json → Bool
  | .str u => upStr u == u
  | .arr _ => false
  | .obj fs => isCleanedFields fs
  | _ => true

end

mutual

/-- Schemas whose `type` arrays all collapse to a primitive — the amended
idempotence hypothesis. -/
def schemaOK : Json → Bool
  | .obj fs => schemaOKFields fs
  | .arr xs => schemaOKList xs
  | _ => true

def schemaOKList : List Json → Bool
  | [] => true
  | x :: xs => schemaOK x && schemaOKList xs

def schemaOKFields : List (String × Json) → Bool
  | [] => true
  | (k, v) :: rest =>
    (if k = "type" then schemaOKType v else schemaOK v) && schemaOKFields rest

/-- A safe `type` value: an array collapsing to a primitive, or any other
safe value. -/
def schemaOKType : Json → Bool
  | .arr es => primitiveJson (typeCollapse es)
  | .obj fs => schemaOKFields fs
  | _ => true

end

/-- Pre-uppercase cleanliness of a `type` value: a not-yet-uppercased string,
a primitive, or a fully cleaned object — never an array. -/
def preType : Json → Bool
  | .str _ => true
  | .arr _ => false
  | v => isCleaned v

/-- Pre-uppercase cleanliness of the entry loop's output: like
`isCleanedFields` but `type` strings need not be uppercase yet. -/
def preFields : List (String × Json) → Bool
  | [] => true
  | (k, v) :: rest =>
    !(badKeys.contains k) &&
    (if k = "type" then preType v else isCleaned v) &&
    preFields rest

def c8ce : Json := .obj [("type", .arr [.obj [("$schema", .str "x")]])]

def c8w : Json := .obj
  [("type", .arr [.str "string", .str "null"]),
   ("minLength", .num 1),
   ("description", .str "a name"),
   ("properties", .obj [("a", .obj [("type", .str "integer"), ("format", .str "x")])])]

theorem toNat_ofNat_valid (n : Nat) (h : n.isValidChar) : (Char.ofNat n).toNat = n := by
  simp [Char.ofNat, h, Char.ofNatAux, Char.toNat, UInt32.toNat, BitVec.toNat_ofNatLt]

theorem upChar_idem (c : Char) : upChar (upChar c) = upChar c := by
  by_cases h : 97 ≤ c.toNat ∧ c.toNat ≤ 122
  · have hv : (c.toNat - 32).isValidChar := Or.inl (by omega)
    have h2 : (Char.ofNat (c.toNat - 32)).toNat = c.toNat - 32 := toNat_ofNat_valid _ hv
    have hval : upChar c = Char.ofNat (c.toNat - 32) := by rw [upChar, if_pos h]
    rw [hval, upChar, h2, if_neg (by omega)]
  · have hval : upChar c = c := by rw [upChar, if_neg h]
    rw [hval, hval]

theorem upStr_idem (s : String) : upStr (upStr s) = upStr s := by
  simp only [upStr, List.map_map]
  congr 1
  exact List.map_congr_left (fun a _ => upChar_idem a)

theorem upTypeVal_idem (v : Json) : upTypeVal (upTypeVal v) = upTypeVal v := by
  cases v <;> simp only [upTypeVal]
  · rw [upStr_idem]
  · rename_i es
    rw [List.map_map]
    congr 1
    apply List.map_congr_left
    intro e _
    cases e <;> simp [upStr_idem]

mutual

theorem up_fixed : ∀ s, isCleaned s = true → uppercaseSchemaTypes s = s
  | .null, _ => rfl
  | .bool _, _ => rfl
  | .num _, _ => rfl
  | .str _, _ => rfl
  | .arr xs, h => by
    simp only [isCleaned] at h
    simp only [uppercaseSchemaTypes]
    rw [up_fixed_list xs h]
  | .obj fs, h => by
    simp only [isCleaned] at h
    simp only [uppercaseSchemaTypes]
    rw [up_fixed_fields fs h]

theorem up_fixed_list : ∀ xs, isCleanedList xs = true → upList xs = xs
  | [], _ => rfl
  | x :: xs, h => by
    simp only [isCleanedList, Bool.and_eq_true] at h
    simp only [upList]
    rw [up_fixed x h.1, up_fixed_list xs h.2]

theorem up_fixed_fields : ∀ fs, isCleanedFields fs = true → upFields fs = fs
  | [], _ => rfl
  | (k, v) :: rest, h => by
    simp only [isCleanedFields, Bool.and_eq_true] at h
    obtain ⟨⟨hbad, hv⟩, hrest⟩ := h
    by_cases hty : k = "type"
    · rw [hty] at hv ⊢
      cases v with
      | str u =>
        have hu : upStr u = u := by simpa [isCleanedType] using hv
        simp [upFields, upTypeVal, hu, up_fixed_fields rest hrest]
      | arr es => simp [isCleanedType] at hv
      | null => simp [upFields, upTypeVal, up_fixed_fields rest hrest]
      | bool b => simp [upFields, upTypeVal, up_fixed_fields rest hrest]
      | num n => simp [upFields, upTypeVal, up_fixed_fields rest hrest]
      | obj gs => simp [upFields, upTypeVal, up_fixed_fields rest hrest]
    · rw [if_neg hty] at hv
      cases v with
      | obj gs =>
        simp only [isCleaned] at hv
        simp [upFields, hty, up_fixed_fields gs hv, up_fixed_fields rest hrest]
      | arr xs =>
        simp only [isCleaned] at hv
        simp [upFields, hty, up_fixed_list xs hv, up_fixed_fields rest hrest]
      | null => simp [upFields, hty, up_fixed_fields rest hrest]
      | bool b => simp [upFields, hty, up_fixed_fields rest hrest]
      | num n => simp [upFields, hty, up_fixed_fields rest hrest]
      | str u => simp [upFields, hty, up_fixed_fields rest hrest]

end

theorem preType_of_primitive (w : Json) (h : primitiveJson w = true) : preType w = true := by
  cases w <;> simp_all [primitiveJson, preType, isCleaned]

theorem cleanFinish_eq (vals : List String) (cs : List (String × Json)) :
    cleanFinish vals cs = .obj (upFields
      (if !vals.isEmpty && !(jsTruthy? (jsGet cs "description")) then
        jsObjInsert cs "description" (.str ("Validation: " ++ joinWith ", " vals))
      else cs)) := by
  rw [cleanFinish]
  split <;> simp [uppercaseSchemaTypes]

theorem preFields_insert_desc : ∀ (cs : List (String × Json)) (t : String),
    preFields cs = true → preFields (jsObjInsert cs "description" (.str t)) = true := by
  intro cs
  induction cs with
  | nil =>
    intro t _
    rw [jsObjInsert]
    simp [preFields, isCleaned, (by decide : ("description" : String) ∉ badKeys),
      (by decide : ¬(("description" : String) = "type"))]
  | cons kv cs' ih =>
    intro t h
    obtain ⟨k0, v0⟩ := kv
    simp only [preFields, Bool.and_eq_true] at h
    obtain ⟨⟨hbad, hv⟩, hrest⟩ := h
    rw [jsObjInsert]
    split
    · rename_i hk0
      subst hk0
      simp [preFields, isCleaned, hrest, (by decide : ("description" : String) ∉ badKeys),
        (by decide : ¬(("description" : String) = "type"))]
    · simp only [preFields, Bool.and_eq_true]
      exact ⟨⟨hbad, hv⟩, ih t hrest⟩

theorem up_pre : ∀ fs, preFields fs = true → isCleanedFields (upFields fs) = true
  | [], _ => rfl
  | (k, v) :: rest, h => by
    simp only [preFields, Bool.and_eq_true] at h
    obtain ⟨⟨hbad, hv⟩, hrest⟩ := h
    have hmem : k ∉ badKeys := by simpa using hbad
    have hr := up_pre rest hrest
    by_cases hty : k = "type"
    · subst hty
      simp only [if_pos rfl] at hv
      cases v with
      | str u => simp [upFields, upTypeVal, isCleanedFields, isCleanedType, upStr_idem, hmem, hr]
      | arr es => simp [preType] at hv
      | null => simp [upFields, upTypeVal, isCleanedFields, isCleanedType, hmem, hr]
      | bool b => simp [upFields, upTypeVal, isCleanedFields, isCleanedType, hmem, hr]
      | num n => simp [upFields, upTypeVal, isCleanedFields, isCleanedType, hmem, hr]
      | obj gs =>
        have hg : isCleanedFields gs = true := by simpa [preType, isCleaned] using hv
        simp [upFields, upTypeVal, isCleanedFields, isCleanedType, hmem, hr, hg]
    · rw [if_neg hty] at hv
      cases v with
      | obj gs =>
        have hg : isCleanedFields gs = true := by simpa [isCleaned] using hv
        simp [upFields, hty, isCleanedFields, isCleaned, hmem, hr, up_fixed_fields gs hg, hg]
      | arr xs =>
        have hg : isCleanedList xs = true := by simpa [isCleaned] using hv
        simp [upFields, hty, isCleanedFields, isCleaned, hmem, hr, up_fixed_list xs hg, hg]
      | null => simp [upFields, hty, isCleanedFields, isCleaned, hmem, hr]
      | bool b => simp [upFields, hty, isCleanedFields, isCleaned, hmem, hr]
      | num n => simp [upFields, hty, isCleanedFields, isCleaned, hmem, hr]
      | str u => simp [upFields, hty, isCleanedFields, isCleaned, hmem, hr]

theorem cleanObjBody_cleaned (fs : List (String × Json))
    (hpre : preFields (cleanFields (mkValidations fs) fs) = true) :
    isCleaned (cleanObjBody fs) = true := by
  rw [cleanObjBody, cleanFinish_eq]
  simp only [isCleaned]
  split
  · exact up_pre _ (preFields_insert_desc _ _ hpre)
  · exact up_pre _ hpre

theorem isCleanedFields_badFree : ∀ fs, isCleanedFields fs = true →
    ∀ kv ∈ fs, badKeys.contains kv.1 = false := by
  intro fs
  induction fs with
  | nil => intro _ kv hkv; simp at hkv
  | cons kv0 rest ih =>
    intro h kv hkv
    obtain ⟨k0, v0⟩ := kv0
    simp only [isCleanedFields, Bool.and_eq_true] at h
    obtain ⟨⟨hbad, _⟩, hrest⟩ := h
    rcases List.mem_cons.mp hkv with h | h
    · subst h; simpa using hbad
    · exact ih hrest kv h

theorem jsGet_none_of_badFree (fs : List (String × Json))
    (hb : ∀ kv ∈ fs, badKeys.contains kv.1 = false)
    (k : String) (hk : badKeys.contains k = true) : jsGet fs k = none := by
  simp only [jsGet, Option.map_eq_none', List.find?_eq_none]
  intro kv hkv heq
  have h1 := hb kv hkv
  have h2 : kv.1 = k := by simpa using heq
  rw [h2, hk] at h1
  exact absurd h1 (by simp)

theorem mkValidations_nil (fs : List (String × Json))
    (hf : isCleanedFields fs = true) : mkValidations fs = [] := by
  have hb := isCleanedFields_badFree fs hf
  have h1 := jsGet_none_of_badFree fs hb "minLength" (by decide)
  have h2 := jsGet_none_of_badFree fs hb "maxLength" (by decide)
  have h3 := jsGet_none_of_badFree fs hb "minimum" (by decide)
  have h4 := jsGet_none_of_badFree fs hb "maximum" (by decide)
  have h5 := jsGet_none_of_badFree fs hb "minItems" (by decide)
  have h6 := jsGet_none_of_badFree fs hb "maxItems" (by decide)
  simp [mkValidations, valKeys, h1, h2, h3, h4, h5, h6]

mutual

theorem clean_gives : ∀ s, schemaOK s = true → isCleaned (cleanJsonSchema s) = true
  | .null, _ => rfl
  | .bool true, _ => rfl
  | .bool false, _ => rfl
  | .num _, _ => rfl
  | .str _, _ => rfl
  | .arr xs, h => by
    simp only [schemaOK] at h
    simp only [cleanJsonSchema, isCleaned]
    exact clean_gives_list xs h
  | .obj fs, h => by
    simp only [schemaOK] at h
    exact cleanObjBody_cleaned fs (clean_gives_fields (mkValidations fs) fs h)

theorem clean_gives_list : ∀ xs, schemaOKList xs = true → isCleanedList (cleanList xs) = true
  | [], _ => rfl
  | x :: xs, h => by
    simp only [schemaOKList, Bool.and_eq_true] at h
    simp only [cleanList, isCleanedList, Bool.and_eq_true]
    exact ⟨clean_gives x h.1, clean_gives_list xs h.2⟩

theorem clean_gives_fields : ∀ (vals : List String) fs, schemaOKFields fs = true →
    preFields (cleanFields vals fs) = true
  | vals, [], _ => rfl
  | vals, (k, v) :: rest, h => by
    simp only [schemaOKFields, Bool.and_eq_true] at h
    obtain ⟨hv, hrest⟩ := h
    have hr := clean_gives_fields vals rest hrest
    by_cases hc1 : k ∈ fieldsToRemove ∨ k ∈ valKeys
    · cases v <;> simpa [cleanFields, hc1] using hr
    · by_cases hc2 : k = "format"
      · cases v <;> simpa [cleanFields, hc1, hc2] using hr
      · by_cases hc3 : k = "default"
        · cases v <;> simpa [cleanFields, hc1, hc2, hc3] using hr
        · by_cases hc4 : k = "uniqueItems"
          · cases v <;> simpa [cleanFields, hc1, hc2, hc3, hc4] using hr
          · by_cases hc5 : k = "type"
            · subst hc5
              simp only [if_pos rfl] at hv
              cases v with
              | arr es =>
                have hp : primitiveJson (typeCollapse es) = true := by
                  simpa [schemaOKType] using hv
                simp [cleanFields, hc1, hc2, hc3, hc4, preFields, hr,
                  (by decide : ("type" : String) ∉ badKeys), preType_of_primitive _ hp]
              | obj gs =>
                have hgs : schemaOKFields gs = true := by simpa [schemaOKType] using hv
                have hcl := cleanObjBody_cleaned gs (clean_gives_fields (mkValidations gs) gs hgs)
                have hpt : preType (cleanObjBody gs) = true := by
                  rw [cleanObjBody, cleanFinish_eq] at hcl ⊢
                  simpa [preType] using hcl
                rw [cleanObjBody] at hpt
                simp [cleanFields, hc1, hc2, hc3, hc4, preFields, hr,
                  (by decide : ("type" : String) ∉ badKeys), hpt]
              | null =>
                simp [cleanFields, hc1, hc2, hc3, hc4, preFields, hr, preType, isCleaned,
                  (by decide : ("type" : String) ∉ badKeys)]
              | bool b =>
                simp [cleanFields, hc1, hc2, hc3, hc4, preFields, hr, preType, isCleaned,
                  (by decide : ("type" : String) ∉ badKeys)]
              | num n =>
                simp [cleanFields, hc1, hc2, hc3, hc4, preFields, hr, preType, isCleaned,
                  (by decide : ("type" : String) ∉ badKeys)]
              | str u =>
                simp [cleanFields, hc1, hc2, hc3, hc4, preFields, hr, preType,
                  (by decide : ("type" : String) ∉ badKeys)]
            · have hmem : k ∉ badKeys := by
                intro hk
                simp [badKeys] at hk
                rcases hk with rfl|rfl|rfl|rfl|rfl|rfl|rfl|rfl|rfl|rfl|rfl <;>
                  first | exact hc1 (by decide) | exact hc2 rfl | exact hc3 rfl | exact hc4 rfl
              rw [if_neg hc5] at hv
              by_cases hc6 : k = "description" ∧ ¬vals = []
              · obtain ⟨hk, hvn⟩ := hc6
                subst hk
                cases v <;>
                  simp [cleanFields, hc1, hc2, hc3, hc4, hc5, hvn, preFields, hr, isCleaned,
                    (by decide : ("description" : String) ∉ badKeys),
                    (by decide : ¬(("description" : String) = "type"))]
              · cases v with
                | obj gs =>
                  have hgs : schemaOKFields gs = true := by simpa [schemaOK] using hv
                  have hcl := cleanObjBody_cleaned gs (clean_gives_fields (mkValidations gs) gs hgs)
                  rw [cleanObjBody] at hcl
                  simp [cleanFields, hc1, hc2, hc3, hc4, hc5, hc6, preFields, hr, hmem, hcl]
                | arr xs =>
                  have hxs : schemaOKList xs = true := by simpa [schemaOK] using hv
                  have hcl := clean_gives_list xs hxs
                  simp [cleanFields, hc1, hc2, hc3, hc4, hc5, hc6, preFields, hr, hmem,
                    isCleaned, hcl]
                | null => simp [cleanFields, hc1, hc2, hc3, hc4, hc5, hc6, preFields, hr, hmem, isCleaned]
                | bool b => simp [cleanFields, hc1, hc2, hc3, hc4, hc5, hc6, preFields, hr, hmem, isCleaned]
                | num n => simp [cleanFields, hc1, hc2, hc3, hc4, hc5, hc6, preFields, hr, hmem, isCleaned]
                | str u => simp [cleanFields, hc1, hc2, hc3, hc4, hc5, hc6, preFields, hr, hmem, isCleaned]

end

theorem cleanObjBody_fixed (gs : List (String × Json))
    (hval : mkValidations gs = [])
    (hfix : cleanFields [] gs = gs)
    (hup : upFields gs = gs) :
    cleanObjBody gs = .obj gs := by
  rw [cleanObjBody, hval, hfix, cleanFinish_eq]
  simp [hup]

mutual

theorem clean_fixed : ∀ s, isCleaned s = true → cleanJsonSchema s = s
  | .null, _ => rfl
  | .bool true, _ => rfl
  | .bool false, _ => rfl
  | .num _, _ => rfl
  | .str _, _ => rfl
  | .arr xs, h => by
    simp only [isCleaned] at h
    simp only [cleanJsonSchema]
    rw [clean_fixed_list xs h]
  | .obj fs, h => by
    simp only [isCleaned] at h
    have hob := cleanObjBody_fixed fs (mkValidations_nil fs h) (clean_fixed_fields fs h)
      (up_fixed_fields fs h)
    rw [cleanObjBody] at hob
    simpa [cleanJsonSchema] using hob

theorem clean_fixed_list : ∀ xs, isCleanedList xs = true → cleanList xs = xs
  | [], _ => rfl
  | x :: xs, h => by
    simp only [isCleanedList, Bool.and_eq_true] at h
    simp only [cleanList]
    rw [clean_fixed x h.1, clean_fixed_list xs h.2]

theorem clean_fixed_fields : ∀ fs, isCleanedFields fs = true → cleanFields [] fs = fs
  | [], _ => rfl
  | (k, v) :: rest, h => by
    simp only [isCleanedFields, Bool.and_eq_true] at h
    obtain ⟨⟨hbad, hv⟩, hrest⟩ := h
    have hr := clean_fixed_fields rest hrest
    have hmem : k ∉ badKeys := by simpa using hbad
    have hc1 : ¬(k ∈ fieldsToRemove ∨ k ∈ valKeys) := by
      intro hk
      apply hmem
      simp [fieldsToRemove, valKeys] at hk
      rcases hk with (rfl | rfl) | (rfl | rfl | rfl | rfl | rfl | rfl) <;> decide
    have hc2 : ¬(k = "format") := fun hk => hmem (by subst hk; decide)
    have hc3 : ¬(k = "default") := fun hk => hmem (by subst hk; decide)
    have hc4 : ¬(k = "uniqueItems") := fun hk => hmem (by subst hk; decide)
    by_cases hc5 : k = "type"
    · subst hc5
      simp only [if_pos rfl] at hv
      cases v with
      | str u => simp [cleanFields, hc1, hc2, hc3, hc4, hr]
      | arr es => simp [isCleanedType] at hv
      | obj gs =>
        have hg : isCleanedFields gs = true := by simpa [isCleanedType] using hv
        have hob := cleanObjBody_fixed gs (mkValidations_nil gs hg) (clean_fixed_fields gs hg)
          (up_fixed_fields gs hg)
        rw [cleanObjBody] at hob
        simp [cleanFields, hc1, hc2, hc3, hc4, hr, hob]
      | null => simp [cleanFields, hc1, hc2, hc3, hc4, hr]
      | bool b => simp [cleanFields, hc1, hc2, hc3, hc4, hr]
      | num n => simp [cleanFields, hc1, hc2, hc3, hc4, hr]
    · rw [if_neg hc5] at hv
      cases v with
      | obj gs =>
        have hg : isCleanedFields gs = true := by simpa [isCleaned] using hv
        have hob := cleanObjBody_fixed gs (mkValidations_nil gs hg) (clean_fixed_fields gs hg)
          (up_fixed_fields gs hg)
        rw [cleanObjBody] at hob
        simp [cleanFields, hc1, hc2, hc3, hc4, hc5, hr, hob]
      | arr xs =>
        have hg : isCleanedList xs = true := by simpa [isCleaned] using hv
        simp [cleanFields, hc1, hc2, hc3, hc4, hc5, hr, clean_fixed_list xs hg]
      | null => simp [cleanFields, hc1, hc2, hc3, hc4, hc5, hr]
      | bool b => simp [cleanFields, hc1, hc2, hc3, hc4, hc5, hr]
      | num n => simp [cleanFields, hc1, hc2, hc3, hc4, hc5, hr]
      | str u => simp [cleanFields, hc1, hc2, hc3, hc4, hc5, hr]

end

/-- C8 (amended): the JSON-schema cleaner is idempotent on every schema whose
`type` arrays each collapse to a primitive (non-array, non-object) value —
`cleanJsonSchema (cleanJsonSchema s) = cleanJsonSchema s` for every `s` with
`schemaOK s`; unrestricted idempotence fails (see the counterexample). -/
theorem cleanJsonSchema_idempotent (s : Json) (h : schemaOK s = true) :
    cleanJsonSchema (cleanJsonSchema s) = cleanJsonSchema s :=
  clean_fixed _ (clean_gives s h)

theorem cleanJsonSchema_idempotent_witness :
    schemaOK c8w = true ∧ cleanJsonSchema (cleanJsonSchema c8w) = cleanJsonSchema c8w :=
  ⟨by decide, cleanJsonSchema_idempotent c8w (by decide)⟩

/-- A `type` array whose collapse picks an object is not a fixed point of the
second pass: the first pass copies the raw element, the second cleans it. -/
theorem cleanJsonSchema_not_idempotent :
    cleanJsonSchema c8ce = .obj [("type", .obj [("$schema", .str "x")])] ∧
    cleanJsonSchema (cleanJsonSchema c8ce) = .obj [("type", .obj [])] ∧
    cleanJsonSchema (cleanJsonSchema c8ce) ≠ cleanJsonSchema c8ce := by
  refine ⟨by decide, by decide, by decide⟩

end AG2
